import Mathlib

/-!
# Verification of the external-data checking engine

Shallow embedding of `src/checker.py` and `src/lib/utils.py` of the
flatpak-external-data-checker repository, together with theorems settling
the specification claims about them.

Conventions:
* Python strings that carry raw octets (URLs, file payloads) are modelled as
  `List Nat` with every element `< 256`; textual strings are Lean `String`s.
* Fallible Python code (exceptions) is modelled with `Option`/`Except` or
  with explicit result inductives.
* Machine integers do not overflow in any of the modelled code paths, so
  `Nat` is used directly.
-/

namespace FEDC

/-! ## Environment scrubbing (`utils.clear_env`, utils.py lines 129-135)

`clear_env(environ)` deep-copies the mapping and pops every variable whose
lowercased name contains one of `"pass"`, `"token"`, `"secret"`, `"auth"`.
At every call site the argument is `os.environ`, whose iterator snapshots the
key list before yielding (so popping during the loop is well defined); the
loop is modelled with that snapshot semantics.  A mapping is modelled as an
association list (Python dicts preserve insertion order). -/
/-- One environment: an insertion-ordered mapping from variable names to
values. -/
abbrev Env := List (String × String)

/-- ASCII lowering of a string, embedding `str.lower()` on the ASCII
variable names that occur in environments. -/
def lowerStr (s : String) : String :=
  String.mk (s.data.map Char.toLower)

/-- Python's `sub in s` substring test on character lists. -/
def isSubChars (sub : List Char) : List Char → Bool
  | [] => sub.isEmpty
  | c :: rest => sub.isPrefixOf (c :: rest) || isSubChars sub rest

/-- Model of `any(i in varname.lower() for i in ["pass", "token", "secret", "auth"])`
from `clear_env`. -/
def sensitiveName (varname : String) : Bool :=
  ["pass", "token", "secret", "auth"].any
    (fun i => isSubChars i.data (lowerStr varname).data)

/-- Model of `utils.clear_env`: deep-copy `environ`, then iterate over a snapshot of
its keys, popping each sensitive variable from the copy.  Popping a key from
a mapping removes its entry. -/
def clear_env (environ : Env) : Env :=
  (environ.map Prod.fst).foldl
    (fun new_env varname =>
      if sensitiveName varname then
        new_env.filter (fun kv => kv.1 ≠ varname)
      else
        new_env)
    environ

/-! ### Heap model for the frame property of `clear_env` (C10)

`clear_env` receives a reference to the caller's mapping, deep-copies it, and
mutates only the copy.  To state that the caller's mapping is untouched we
make the store explicit: a heap is a list of environments addressed by index;
`copy.deepcopy` allocates a fresh cell; `pop` mutates one cell in place. -/
/-- A store of environment objects; addresses are list indices. -/
structure Heap where
  cells : List Env

/-- Model of `copy.deepcopy(environ)`: allocate a fresh cell holding a copy of the
cell at `a`, returning the new heap and the fresh address. -/
def deepcopyEnv (h : Heap) (a : Nat) : Heap × Nat :=
  (⟨h.cells ++ [h.cells.getD a []]⟩, h.cells.length)

/-- Model of `new_env.pop(varname)`: remove the entry for `varname` from the mapping
stored at address `b`, in place. -/
def popEnv (h : Heap) (b : Nat) (varname : String) : Heap :=
  ⟨h.cells.set b ((h.cells.getD b []).filter (fun kv => kv.1 ≠ varname))⟩

/-- Model of `utils.clear_env` with the store explicit: deep-copy the mapping at `a`,
snapshot the copy's keys, pop every sensitive key from the copy, and return
the copy's address. -/
def clear_env_heap (h : Heap) (a : Nat) : Heap × Nat :=
  let copied := deepcopyEnv h a
  let h1 := copied.1
  let b := copied.2
  let keys := (h1.cells.getD b []).map Prod.fst
  let h2 := keys.foldl
    (fun hh varname =>
      if sensitiveName varname then popEnv hh b varname else hh)
    h1
  (h2, b)

/-! ## Network fetch retry (`utils.get_extra_data_info_from_url`, utils.py lines 98-126)

The function is wrapped in
`@retry(retry=retry_if_exception_type((ConnectionResetError, socket.timeout)),
stop=stop_after_attempt(3), wait=wait_fixed(2))`.  We model the underlying
`urlopen`-and-hash body as an oracle `f : Nat → FetchAttempt α` giving the
outcome of each numbered attempt (the successfully built `ExternalFile`
value, or the exception raised), and embed tenacity's retry loop: a
retriable exception before the third attempt sleeps 2 seconds and retries;
the third retriable failure stops; any other exception propagates at once. -/
/-- The exceptions that can escape one attempt of the fetch body. -/
inductive FetchErr where
  | connectionResetError
  | socketTimeout
  | httpError (code : Nat)
  | urlError (reason : String)
  | valueError
  deriving DecidableEq, Repr

/-- Outcome of running the undecorated body once. -/
inductive FetchAttempt (α : Type) where
  | ok (a : α)
  | raise (e : FetchErr)
  deriving DecidableEq, Repr

/-- Model of `retry_if_exception_type((ConnectionResetError, socket.timeout))`. -/
def retriable : FetchErr → Bool
  | .connectionResetError => true
  | .socketTimeout => true
  | _ => false

/-- Result of the decorated call: the value, an exception propagated
unretried, or tenacity's `RetryError` after the attempt limit. -/
inductive RetryResult (α : Type) where
  | value (a : α)
  | raised (e : FetchErr)
  | retryError (e : FetchErr)
  deriving DecidableEq, Repr

/-- Tenacity's loop: run attempt number `attempt` with `remaining` further
attempts still allowed by `stop_after_attempt` and a `wait_fixed wait`
backoff.  Returns the result, the number of the last attempt executed, and
the total seconds slept between attempts. -/
def tenacityGo {α : Type} (f : Nat → FetchAttempt α) (wait : Nat) :
    Nat → Nat → RetryResult α × Nat × Nat
  | attempt, remaining =>
    match f attempt with
    | .ok a => (.value a, attempt, 0)
    | .raise e =>
      if retriable e then
        match remaining with
        | 0 => (.retryError e, attempt, 0)
        | r + 1 =>
          let res := tenacityGo f wait (attempt + 1) r
          (res.1, res.2.1, res.2.2 + wait)
      else
        (.raised e, attempt, 0)

/-- Model of `utils.get_extra_data_info_from_url` as decorated:
`stop_after_attempt(3)` (the first attempt plus at most two retries) with
`wait_fixed(2)` seconds of backoff before each retry. -/
def get_extra_data_info_from_url {α : Type} (f : Nat → FetchAttempt α) :
    RetryResult α × Nat × Nat :=
  tenacityGo f 2 1 2

/-! ## Manifest serialization (`ManifestChecker._dump_manifest`, checker.py lines 89-96)

`_dump_manifest` raises `NotImplementedError` for a `.yaml`/`.yml` path and
otherwise returns `json.dumps(contents, indent=4)`.  We embed
`os.path.splitext` (POSIX rules) and the `json.dumps` serializer with
`indent=4` (so item separator `","`, key separator `": "`, `ensure_ascii`). -/
/-- Index of the last occurrence of `c` (Python `str.rfind`, as an
`Option`). -/
def rfindIdx (c : Char) : List Char → Option Nat
  | [] => none
  | x :: xs =>
    match rfindIdx c xs with
    | some i => some (i + 1)
    | none => if x = c then some 0 else none

/-- Model of `str.rfind` proper: `-1` when absent. -/
def rfind (c : Char) (l : List Char) : Int :=
  match rfindIdx c l with
  | some i => (i : Int)
  | none => -1

/-- Model of `os.path.splitext` for POSIX paths: the extension starts at the last
`'.'` of the basename, unless every character of the basename before that
dot is itself a dot (leading dots do not start an extension). -/
def splitext (p : String) : String × String :=
  let l := p.data
  let sepIndex := rfind '/' l
  let dotIndex := rfind '.' l
  if dotIndex > sepIndex then
    let lo := (sepIndex + 1).toNat
    let seg := (l.drop lo).take (dotIndex.toNat - lo)
    if seg.any (fun ch => ch ≠ '.') then
      (String.mk (l.take dotIndex.toNat), String.mk (l.drop dotIndex.toNat))
    else
      (p, "")
  else
    (p, "")

/-- One lowercase hex digit. -/
def hexLower (n : Nat) : Char :=
  if n < 10 then Char.ofNat (48 + n) else Char.ofNat (87 + n)

/-- Escape sequence `\uXXXX` with four lowercase hex digits. -/
def uEscape4 (n : Nat) : List Char :=
  '\\' :: 'u' :: [hexLower (n / 4096 % 16), hexLower (n / 256 % 16),
                  hexLower (n / 16 % 16), hexLower (n % 16)]

/-- The `json.dumps` escaping of one character (`ensure_ascii=True`): printable
ASCII other than `"` and `\` passes through, the common control characters
use their short escapes, everything else becomes `\uXXXX` (a surrogate pair
above U+FFFF). -/
def jsonEscapeChar (c : Char) : List Char :=
  if c = '"' then ['\\', '"']
  else if c = '\\' then ['\\', '\\']
  else if c = '\n' then ['\\', 'n']
  else if c = '\t' then ['\\', 't']
  else if c = '\r' then ['\\', 'r']
  else if c.toNat = 8 then ['\\', 'b']
  else if c.toNat = 12 then ['\\', 'f']
  else if c.toNat < 32 ∨ c.toNat > 126 then
    if c.toNat < 65536 then uEscape4 c.toNat
    else
      uEscape4 (55296 + (c.toNat - 65536) / 1024)
        ++ uEscape4 (56320 + (c.toNat - 65536) % 1024)
  else [c]

/-- A JSON-quoted string, escaped as `json.dumps` does. -/
def jsonQuoteChars (s : String) : List Char :=
  '"' :: (s.data.map jsonEscapeChar).flatten ++ ['"']

/-- The manifest trees held in `_manifest_contents`: JSON values. -/
inductive JsonValue where
  | null
  | boolean (b : Bool)
  | num (n : Int)
  | str (s : String)
  | arr (items : List JsonValue)
  | obj (fields : List (String × JsonValue))

/-- Exactly `indent * d` spaces of indentation. -/
def jpad (indent d : Nat) : List Char :=
  List.replicate (indent * d) ' '

/-- Model of `sep.join(pieces)`: concatenate the rendered pieces with `sep` between
consecutive ones. -/
def joinSepList (sep : List Char) : List (List Char) → List Char
  | [] => []
  | [x] => x
  | x :: y :: xs => x ++ sep ++ joinSepList sep (y :: xs)

mutual

/-- Model of `json.dumps(v, indent=indent)` at nesting depth `d` (with an indent the
item separator is `","` followed by a newline and the key separator `": "`;
empty containers print without newlines). -/
def jdump (indent d : Nat) : JsonValue → List Char
  | .null => "null".data
  | .boolean true => "true".data
  | .boolean false => "false".data
  | .num n => (toString n).data
  | .str s => jsonQuoteChars s
  | .arr [] => ['[', ']']
  | .arr (x :: xs) =>
    '[' :: '\n' :: joinSepList [',', '\n'] (jitems indent (d + 1) (x :: xs))
      ++ '\n' :: jpad indent d ++ [']']
  | .obj [] => ['\x7b', '\x7d']
  | .obj (f :: fs) =>
    '\x7b' :: '\n' :: joinSepList [',', '\n'] (jfields indent (d + 1) (f :: fs))
      ++ '\n' :: jpad indent d ++ ['\x7d']

/-- The rendered, indented elements of an array. -/
def jitems (indent d : Nat) : List JsonValue → List (List Char)
  | [] => []
  | x :: xs => (jpad indent d ++ jdump indent d x) :: jitems indent d xs

/-- The rendered, indented `"key": value` members of an object. -/
def jfields (indent d : Nat) : List (String × JsonValue) → List (List Char)
  | [] => []
  | kv :: xs =>
    (jpad indent d ++ jsonQuoteChars kv.1 ++ ':' :: ' ' :: jdump indent d kv.2)
      :: jfields indent d xs

end

/-- Model of `json.dumps(contents, indent=4)`. -/
def json_dumps_indent4 (contents : JsonValue) : String :=
  String.mk (jdump 4 0 contents)

/-- Result of `ManifestChecker._dump_manifest`. -/
inductive DumpResult where
  | ok (s : String)
  | notImplementedError
  deriving DecidableEq, Repr

/-- Model of `ManifestChecker._dump_manifest` (checker.py lines 89-96): raise
`NotImplementedError` for a `.yaml`/`.yml` extension, otherwise return
`json.dumps(contents, indent=4)`. -/
def _dump_manifest (manifest_path : String) (contents : JsonValue) : DumpResult :=
  if (splitext manifest_path).2 = ".yaml" ∨ (splitext manifest_path).2 = ".yml" then
    .notImplementedError
  else
    .ok (json_dumps_indent4 contents)

/-! ## The checker orchestrator (`checker.py`)

`ManifestChecker` holds `_manifest_contents` (the insertion-ordered mapping
from loaded file path to parsed tree) and `_external_data` (the
`ExternalData` entities in extraction order).  `lib/externaldata.py` is not
part of the sources, so the `ExternalData` entity and its `update()` method
are modelled from the spec. -/

/-- Modelled from the spec: the `ExternalData` entity of `lib/externaldata.py`
(not under `src/`), reduced to the fields the update pass touches — the
manifest file backing it, the `current` reference recorded in its manifest
subtree, and the pending `new_version` candidate (if any). -/
structure ExternalData where
  path : String
  current : Nat
  new_version : Option Nat
  deriving DecidableEq, Repr

/-- Modelled from the spec: `ExternalData.update()` of `lib/externaldata.py`
(not under `src/`): "if `new_version` is set and differs from `current`,
rewrites the fields of the owning manifest subtree in place … and returns
true; otherwise returns false and performs no mutation."  Returns the bool
together with the mutated entity/subtree. -/
def ExternalData.update (d : ExternalData) : Bool × ExternalData :=
  match d.new_version with
  | some v => if v ≠ d.current then (true, { d with current := v }) else (false, d)
  | none => (false, d)

/-- Whether `d` has a pending update that `update()` would apply. -/
def ExternalData.hasPending (d : ExternalData) : Bool :=
  match d.new_version with
  | some v => v ≠ d.current
  | none => false

/-- The `ManifestChecker` state reached after `__init__`: the loaded files
(key insertion order of `_manifest_contents`, each with its parsed tree)
and the extracted entities. -/
structure ManifestChecker where
  manifest_contents : List (String × JsonValue)
  external_data : List ExternalData

/-- Model of `any(data.update() for data in self._external_data)`: Python's `any`
consumes the generator only until the first `True`, so entities after the
first changed one never have `update()` invoked.  Returns the value of
`any` and the entity list as left by the generator. -/
def anyUpdate : List ExternalData → Bool × List ExternalData
  | [] => (false, [])
  | d :: ds =>
    match ExternalData.update d with
    | (true, d') => (true, d' :: ds)
    | (false, d') =>
      let r := anyUpdate ds
      (r.1, d' :: r.2)

/-- The write loop of `update_manifests` (checker.py lines 172-176): for
each loaded file in order, `serialized = self._dump_manifest(path,
contents)` then write it — when `_dump_manifest` raises
`NotImplementedError` (a `.yaml`/`.yml` path) the exception propagates and
the loop aborts before writing that file; files already written stay
written.  Returns the `(path, serialized text)` pairs written, in order,
and whether the exception propagated. -/
def writeManifests : List (String × JsonValue) → List (String × String) × Bool
  | [] => ([], false)
  | pc :: rest =>
    match _dump_manifest pc.1 pc.2 with
    | .notImplementedError => ([], true)
    | .ok s =>
      let r := writeManifests rest
      ((pc.1, s) :: r.1, r.2)

/-- Model of `ManifestChecker.update_manifests` (checker.py lines 168-176): evaluate
`changed = any(data.update() for data in self._external_data)`; if `changed`,
run the write loop over every entry of `_manifest_contents`.  Returns the
new state, the files actually written, and whether `NotImplementedError`
propagated out of the write loop. -/
def update_manifests (c : ManifestChecker) :
    ManifestChecker × List (String × String) × Bool :=
  let r := anyUpdate c.external_data
  let w := if r.1 then writeManifests c.manifest_contents else ([], false)
  ({ c with external_data := r.2 }, w.1, w.2)

/-- What the update pass actually does to the entity list: apply `update()`
to each entity in order up to and including the first one with a pending
change, and leave the rest untouched. -/
def applyFirstPending : List ExternalData → List ExternalData
  | [] => []
  | d :: ds =>
    if d.hasPending then (ExternalData.update d).2 :: ds
    else d :: applyFirstPending ds

/-! ## Module-source extraction (`ManifestChecker._get_module_data_from_json`, checker.py lines 108-119)

A manifest's `modules` list holds inline module mappings and path strings.
For a path string the code joins it to the directory of the top-level
manifest, reads that file, and takes the loaded mapping's top-level
`sources` — it does not walk the loaded mapping's own `modules` list.
Source declarations are opaque (`Nat` identifiers); the filesystem is a
partial map from path to parsed manifest (reading a missing file raises,
modelled as `none`). -/
mutual

/-- A parsed manifest/module mapping, reduced to the two keys the extractor
reads: `modules` and `sources`. -/
inductive ManifestM where
  | mk (modules : List ModEntry) (sources : List Nat)

/-- One entry of a `modules` list: a path string or an inline mapping. -/
inductive ModEntry where
  | path (p : String)
  | inline (m : ManifestM)

end

/-- The `modules` list of a manifest (empty when the key is missing). -/
def ManifestM.modules : ManifestM → List ModEntry
  | .mk m _ => m

/-- The `sources` list of a manifest (empty when the key is missing). -/
def ManifestM.sources : ManifestM → List Nat
  | .mk _ s => s

/-- Modelled from the spec: the entity produced by
`ExternalDataSource.from_sources` of `lib/externaldata.py` (not under
`src/`), tagged by its source declaration. -/
structure ExternalDataSource where
  decl : Nat
  deriving DecidableEq, Repr

/-- Modelled from the spec: `ExternalDataSource.from_sources` of
`lib/externaldata.py` (not under `src/`): "produces exactly one
`ExternalData` per declaration, preserving declaration order." -/
def ExternalDataSource.from_sources (sources : List Nat) : List ExternalDataSource :=
  sources.map ExternalDataSource.mk

/-- Model of `os.path.join(base_dir, p)` for a non-empty `base_dir`: an absolute `p`
discards `base_dir`. -/
def joinPath (base p : String) : String :=
  if p.data.headD ' ' = '/' then p else base ++ "/" ++ p

/-- The accumulator loop of `_get_module_data_from_json`. -/
def getModuleDataGo (baseDir : String) (fs : String → Option ManifestM) :
    List ModEntry → List ExternalDataSource → Option (List ExternalDataSource)
  | [], acc => some acc
  | e :: rest, acc =>
    match e with
    | .path p =>
      match fs (joinPath baseDir p) with
      | none => none
      | some m =>
        getModuleDataGo baseDir fs rest
          (acc ++ ExternalDataSource.from_sources m.sources)
    | .inline m =>
      getModuleDataGo baseDir fs rest
        (acc ++ ExternalDataSource.from_sources m.sources)

/-- Model of `ManifestChecker._get_module_data_from_json`: iterate over the top-level
manifest's `modules`; replace a string entry by the manifest loaded from the
path joined to the top manifest's directory; extend the result with
`from_sources` of the (possibly loaded) mapping's `sources`. -/
def _get_module_data_from_json (baseDir : String)
    (fs : String → Option ManifestM) (json_data : ManifestM) :
    Option (List ExternalDataSource) :=
  getModuleDataGo baseDir fs json_data.modules []

/-- What the claim describes: string entries loaded recursively, so that a
loaded manifest's own `modules` list is walked as well, its sources included
depth-first.  Python would recurse unboundedly; the model takes a recursion
budget `fuel`, and any budget at least the reference-nesting depth plus the
entry count yields the claimed value. -/
def specModuleEntries (baseDir : String) (fs : String → Option ManifestM) :
    Nat → List ModEntry → Option (List ExternalDataSource)
  | _, [] => some []
  | 0, _ :: _ => none
  | Nat.succ fuel, e :: rest =>
    let head : Option (List ExternalDataSource) :=
      match e with
      | .inline m => some (ExternalDataSource.from_sources m.sources)
      | .path p =>
        match fs (joinPath baseDir p) with
        | none => none
        | some m =>
          match specModuleEntries baseDir fs fuel m.modules with
          | none => none
          | some inner => some (ExternalDataSource.from_sources m.sources ++ inner)
    match head, specModuleEntries baseDir fs fuel rest with
    | some h, some t => some (h ++ t)
    | _, _ => none

/-- Fixture: the filesystem of the C7 counterexample.  `base/sub` is a
module manifest with no sources of its own that references the further
manifest file `subsub`; `base/subsub` carries one source declaration. -/
def moduleFixtureFs : String → Option ManifestM := fun s =>
  if s = "base/sub" then some (ManifestM.mk [ModEntry.path "subsub"] [])
  else if s = "base/subsub" then some (ManifestM.mk [] [7])
  else none

/-- Fixture: the top-level manifest of the C7 counterexample. -/
def moduleFixtureTop : ManifestM :=
  ManifestM.mk [ModEntry.path "sub"] []

/-- Reading one entry of the `modules` list: a path string is resolved
relative to the top manifest's directory and contributes the loaded
mapping's own `sources`; an inline mapping contributes its `sources`. -/
def moduleSources (baseDir : String) (fs : String → Option ManifestM) :
    ModEntry → Option (List Nat)
  | .path p => (fs (joinPath baseDir p)).map ManifestM.sources
  | .inline m => some m.sources

/-- Map a fallible reader over a list, failing if any element fails. -/
def mapOptList {α β : Type} (f : α → Option β) : List α → Option (List β)
  | [] => some []
  | x :: xs =>
    match f x, mapOptList f xs with
    | some y, some ys => some (y :: ys)
    | _, _ => none

/-! ## AppImage introspection (`utils.extract_appimage_version`, utils.py lines 198-245)

The function parses the leading ELF header of the payload with pyelftools,
computes `offset = e_shoff + e_shnum * e_shentsize`, writes the bytes from
that offset on to a file, runs `unsquashfs` on it (sandboxed), and reads
`X-AppImage-Version` from the first `.desktop` key-file of the unpacked
tree.  Payload bytes are `List Nat` octets. -/
/-- Little-endian value of a byte string. -/
def decodeLE : List Nat → Nat
  | [] => 0
  | b :: bs => b + 256 * decodeLE bs

/-- Big-endian value of a byte string. -/
def decodeBE (l : List Nat) : Nat :=
  decodeLE l.reverse

/-- Little-endian encoding of `n` in `k` bytes. -/
def encodeLE (n : Nat) : Nat → List Nat
  | 0 => []
  | k + 1 => n % 256 :: encodeLE (n / 256) k

/-- Read the `len`-byte field at byte offset `off`, little- or big-endian;
reading past the end of the data is a parse failure. -/
def readNum (isLE : Bool) (d : List Nat) (off len : Nat) : Option Nat :=
  if off + len ≤ d.length then
    some (if isLE then decodeLE ((d.drop off).take len)
          else decodeBE ((d.drop off).take len))
  else none

/-- The ELF header fields `extract_appimage_version` reads. -/
structure ElfHeader where
  e_shoff : Nat
  e_shentsize : Nat
  e_shnum : Nat
  deriving DecidableEq, Repr

/-- Model of `ELFFile(...).header` restricted to the section-header fields: check the
`\x7fELF` magic, read the class (1 = 32-bit, 2 = 64-bit) and data encoding
(1 = little-endian, 2 = big-endian) from `e_ident`, and read `e_shoff`,
`e_shentsize` and `e_shnum` at their class-dependent offsets. -/
def parseElfHeader (d : List Nat) : Option ElfHeader :=
  if d.take 4 = [0x7f, 0x45, 0x4c, 0x46] then
    match d[4]?, d[5]? with
    | some eiClass, some eiData =>
      if eiData = 1 ∨ eiData = 2 then
        let isLE := eiData == 1
        if eiClass = 1 then
          match readNum isLE d 0x20 4, readNum isLE d 0x2E 2,
              readNum isLE d 0x30 2 with
          | some shoff, some shentsize, some shnum =>
            some ⟨shoff, shentsize, shnum⟩
          | _, _, _ => none
        else if eiClass = 2 then
          match readNum isLE d 0x28 8, readNum isLE d 0x3A 2,
              readNum isLE d 0x3C 2 with
          | some shoff, some shentsize, some shnum =>
            some ⟨shoff, shentsize, shnum⟩
          | _, _, _ => none
        else none
      else none
    | _, _ => none
  else none

/-- The payload offset `header["e_shoff"] + header["e_shnum"] * header["e_shentsize"]`
computed at utils.py line 210. -/
def appimage_offset (d : List Nat) : Option Nat :=
  (parseElfHeader d).map (fun h => h.e_shoff + h.e_shnum * h.e_shentsize)

/-- The bytes written to the temporary AppImage file: `appimg_io.seek(offset)`
followed by `fp.write(appimg_io.read())`. -/
def appimage_payload (d : List Nat) : Option (List Nat) :=
  (parseElfHeader d).map (fun h => d.drop (h.e_shoff + h.e_shnum * h.e_shentsize))

/-- Bytes 0x00-0x27 of a synthetic 64-bit little-endian ELF header:
magic, `e_ident` tail, `e_type`, `e_machine`, `e_version`, `e_entry`,
`e_phoff`. -/
def elfHeadBytes : List Nat :=
  [0x7f, 0x45, 0x4c, 0x46, 2, 1, 1, 0, 0, 0, 0, 0, 0, 0, 0, 0,
   2, 0, 62, 0, 1, 0, 0, 0,
   0, 0, 0, 0, 0, 0, 0, 0,
   0, 0, 0, 0, 0, 0, 0, 0]

/-- Bytes 0x30-0x39 of the synthetic header: `e_flags`, `e_ehsize`,
`e_phentsize`, `e_phnum`. -/
def elfMidBytes : List Nat :=
  [0, 0, 0, 0, 64, 0, 56, 0, 0, 0]

/-- A synthetic 64-byte 64-bit little-endian ELF header declaring the given
section-header-table offset, entry size and entry count. -/
def mkElf64LE (shoff shentsize shnum : Nat) : List Nat :=
  elfHeadBytes ++ encodeLE shoff 8 ++ elfMidBytes
    ++ encodeLE shentsize 2 ++ encodeLE shnum 2 ++ [0, 0]

/-- A parsed `.desktop` key-file: ((group, key), value) entries.
`GLib.KeyFile.load_from_file` has succeeded on it. -/
abbrev KeyFile := List ((String × String) × String)

/-- Model of `GLib.KeyFile.get_string(group, key)` as a lookup; `none` models the
`GLib.Error` the call raises for a missing group or key. -/
def lookupKeyFile (kf : KeyFile) (group key : String) : Option String :=
  (kf.find? (fun e => e.1.1 == group && e.1.2 == key)).map Prod.snd

/-- Outcome of the sandboxed `unsquashfs` run on the written payload:
its exit code and captured stderr, and the parsed `.desktop` key-files of
`squashfs-root/*.desktop` in `glob` order. -/
structure UnsquashResult where
  returncode : Int
  stderr : String
  desktops : List KeyFile

/-- The exceptions `extract_appimage_version` can raise: a malformed ELF
header (pyelftools `ELFError`), `subprocess.CalledProcessError` from
`p.check_returncode()`, and `GLib.Error` from `kf.get_string`. -/
inductive AppImageErr where
  | elfError
  | calledProcessError (returncode : Int) (stderr : String)
  | gerror
  deriving DecidableEq, Repr

/-- Model of `utils.extract_appimage_version` (utils.py lines 198-245): parse the ELF
header, write the payload from `e_shoff + e_shnum * e_shentsize` on, run
`unsquashfs` (`run` gives the run's outcome for the written payload), raise
on a non-zero exit, and return `kf.get_string("Desktop Entry",
"X-AppImage-Version")` of the first `.desktop` file — the `for` loop returns
on its first iteration, and `None` is returned when no `.desktop` file
matched. -/
def extract_appimage_version (data : List Nat)
    (run : List Nat → UnsquashResult) : Except AppImageErr (Option String) :=
  match parseElfHeader data with
  | none => .error .elfError
  | some h =>
    let r := run (data.drop (h.e_shoff + h.e_shnum * h.e_shentsize))
    if r.returncode ≠ 0 then
      .error (.calledProcessError r.returncode r.stderr)
    else
      match r.desktops with
      | [] => .ok none
      | kf :: _ =>
        match lookupKeyFile kf "Desktop Entry" "X-AppImage-Version" with
        | some v => .ok (some v)
        | none => .error .gerror

/-! ## HTTP date handling (`utils._extract_timestamp`, utils.py lines 66-74)

`_extract_timestamp(info)` takes `info["Last-Modified"] or info["Date"]`
(`None` for a missing header, and an empty value is falsy too); when truthy
it parses the value with `datetime.strptime` against
`"%a, %d %b %Y %H:%M:%S %Z"` and, on `ValueError`, against
`"%a, %d-%b-%Y %H:%M:%S %Z"` — a second `ValueError` propagates; when falsy
it returns `datetime.now()`.  `strptime` is embedded following CPython's
`_strptime` patterns for these two formats (`%a`/`%b` match only the
C-locale abbreviated day/month names, case-insensitively; a whitespace
run in the format matches `\s+`; `%Y` is exactly four digits; `%Z` matches
`utc`/`gmt`; the bounded numeric patterns for `%d`/`%H`/`%M`/`%S`; the
whole string must be consumed; the `datetime` constructor then validates
day-of-month, year ≥ 1 and seconds ≤ 59). -/
/-- A parsed wall-clock timestamp (`datetime.datetime`). -/
structure DateTime where
  year : Nat
  month : Nat
  day : Nat
  hour : Nat
  minute : Nat
  second : Nat
  deriving DecidableEq, Repr

/-- Consume an exact prefix. -/
def dropPre : List Char → List Char → Option (List Char)
  | [], s => some s
  | _ :: _, [] => none
  | p :: ps, c :: cs => if p = c then dropPre ps cs else none

/-- Try the alternatives in order; return the index of the first that is a
prefix, and the rest of the input. -/
def matchFirst (alts : List (List Char)) (s : List Char) :
    Option (Nat × List Char) :=
  match alts with
  | [] => none
  | a :: rest =>
    match dropPre a s with
    | some t => some (0, t)
    | none => (matchFirst rest s).map (fun r => (r.1 + 1, r.2))

/-- The `\s` class of `re`. -/
def isSpaceChar (c : Char) : Bool :=
  c = ' ' || c = '\t' || c = '\n' || c = '\x0b' || c = '\x0c' || c = '\r'

/-- Pattern `\s+`: at least one whitespace character, consumed greedily. -/
def skipWs1 (s : List Char) : Option (List Char) :=
  match s with
  | c :: rest =>
    if isSpaceChar c then some (rest.dropWhile isSpaceChar) else none
  | [] => none

/-- Value of an ASCII digit. -/
def digitVal (c : Char) : Option Nat :=
  if '0' ≤ c ∧ c ≤ '9' then some (c.toNat - 48) else none

/-- Pattern `%d`: `3[01]|[12]\d|0[1-9]|[1-9]` — a two-digit day 01–31 when the two
leading characters form one, else a single digit 1–9. -/
def parseDay : List Char → Option (Nat × List Char)
  | c1 :: c2 :: rest =>
    (match digitVal c1, digitVal c2 with
     | some d1, some d2 =>
       if (d1 = 3 ∧ d2 ≤ 1) ∨ d1 = 1 ∨ d1 = 2 ∨ (d1 = 0 ∧ 1 ≤ d2) then
         some (d1 * 10 + d2, rest)
       else if 1 ≤ d1 then some (d1, c2 :: rest) else none
     | some d1, none => if 1 ≤ d1 then some (d1, c2 :: rest) else none
     | none, _ => none)
  | [c1] =>
    (match digitVal c1 with
     | some d1 => if 1 ≤ d1 then some (d1, []) else none
     | none => none)
  | [] => none

/-- Pattern `%H`: `2[0-3]|[0-1]\d|\d`. -/
def parseHour : List Char → Option (Nat × List Char)
  | c1 :: c2 :: rest =>
    (match digitVal c1, digitVal c2 with
     | some d1, some d2 =>
       if (d1 = 2 ∧ d2 ≤ 3) ∨ d1 ≤ 1 then some (d1 * 10 + d2, rest)
       else some (d1, c2 :: rest)
     | some d1, none => some (d1, c2 :: rest)
     | none, _ => none)
  | [c1] =>
    (match digitVal c1 with
     | some d1 => some (d1, [])
     | none => none)
  | [] => none

/-- Pattern `%M`: `[0-5]\d|\d`. -/
def parseMinute : List Char → Option (Nat × List Char)
  | c1 :: c2 :: rest =>
    (match digitVal c1, digitVal c2 with
     | some d1, some d2 =>
       if d1 ≤ 5 then some (d1 * 10 + d2, rest)
       else some (d1, c2 :: rest)
     | some d1, none => some (d1, c2 :: rest)
     | none, _ => none)
  | [c1] =>
    (match digitVal c1 with
     | some d1 => some (d1, [])
     | none => none)
  | [] => none

/-- Pattern `%S`: `6[0-1]|[0-5]\d|\d` (leap seconds included by the pattern). -/
def parseSecond : List Char → Option (Nat × List Char)
  | c1 :: c2 :: rest =>
    (match digitVal c1, digitVal c2 with
     | some d1, some d2 =>
       if (d1 = 6 ∧ d2 ≤ 1) ∨ d1 ≤ 5 then some (d1 * 10 + d2, rest)
       else some (d1, c2 :: rest)
     | some d1, none => some (d1, c2 :: rest)
     | none, _ => none)
  | [c1] =>
    (match digitVal c1 with
     | some d1 => some (d1, [])
     | none => none)
  | [] => none

/-- Pattern `%Y`: exactly four digits. -/
def parse4Digits : List Char → Option (Nat × List Char)
  | c1 :: c2 :: c3 :: c4 :: rest => do
    let d1 ← digitVal c1
    let d2 ← digitVal c2
    let d3 ← digitVal c3
    let d4 ← digitVal c4
    pure (d1 * 1000 + d2 * 100 + d3 * 10 + d4, rest)
  | _ => none

/-- The `%a` alternatives: the C-locale abbreviated weekday names,
lowercased — CPython's `%a` pattern is built from `LocaleTime.a_weekday`
only, so full weekday names do not match. -/
def weekdayNames : List (List Char) :=
  ["mon", "tue", "wed", "thu", "fri", "sat", "sun"].map String.data

/-- The `%b` alternatives: the abbreviated month names; the index determines the
month number. -/
def monthNames : List (List Char) :=
  ["jan", "feb", "mar", "apr", "may", "jun",
   "jul", "aug", "sep", "oct", "nov", "dec"].map String.data

/-- The `%Z` alternatives. -/
def tzNames : List (List Char) :=
  ["utc", "gmt"].map String.data

/-- Gregorian leap year (`calendar.isleap`, as used by `datetime`). -/
def isLeap (y : Nat) : Bool :=
  (y % 4 = 0 && y % 100 ≠ 0) || y % 400 = 0

/-- Days in a month, as validated by the `datetime` constructor. -/
def daysInMonth (m y : Nat) : Nat :=
  if m = 2 then (if isLeap y then 29 else 28)
  else if m = 4 ∨ m = 6 ∨ m = 9 ∨ m = 11 then 30
  else 31

/-- Model of `datetime.strptime(value, fmt)` for the two formats of
`_extract_timestamp`; `dash` selects `"%a, %d-%b-%Y %H:%M:%S %Z"` over
`"%a, %d %b %Y %H:%M:%S %Z"`.  `none` models the `ValueError`. -/
def strptimeHttp (dash : Bool) (value : String) : Option DateTime := do
  let s0 := value.data.map Char.toLower
  let (_, s1) ← matchFirst weekdayNames s0
  let s2 ← dropPre [','] s1
  let s3 ← skipWs1 s2
  let (day, s4) ← parseDay s3
  let s5 ← if dash then dropPre ['-'] s4 else skipWs1 s4
  let (midx, s6) ← matchFirst monthNames s5
  let s7 ← if dash then dropPre ['-'] s6 else skipWs1 s6
  let (year, s8) ← parse4Digits s7
  let s9 ← skipWs1 s8
  let (hour, s10) ← parseHour s9
  let s11 ← dropPre [':'] s10
  let (minute, s12) ← parseMinute s11
  let s13 ← dropPre [':'] s12
  let (second, s14) ← parseSecond s13
  let s15 ← skipWs1 s14
  let (_, s16) ← matchFirst tzNames s15
  if s16 = [] ∧ 1 ≤ year ∧ day ≤ daysInMonth (midx + 1) year ∧ second ≤ 59 then
    pure ⟨year, midx + 1, day, hour, minute, second⟩
  else
    none

/-- Python's `a or b` over header values, where a missing header is `None`
and `None` and `""` are falsy. -/
def pyOr : Option String → Option String → Option String
  | some s, b => if s = "" then b else some s
  | none, b => b

/-- Truthiness of a header value. -/
def truthy : Option String → Bool
  | some s => s ≠ ""
  | none => false

/-- Result of `_extract_timestamp`: a timestamp, or a propagated
`ValueError`. -/
inductive TsResult where
  | ok (t : DateTime)
  | valueError
  deriving DecidableEq, Repr

/-- Model of `utils._extract_timestamp` (utils.py lines 66-74): take
`info["Last-Modified"] or info["Date"]`; when truthy, parse it with the
first format and on `ValueError` with the second — a second failure
propagates the `ValueError`; when falsy, return `datetime.now()` (passed as
`now`). -/
def _extract_timestamp (lastModified date : Option String) (now : DateTime) :
    TsResult :=
  match pyOr lastModified date with
  | some s =>
    if s = "" then .ok now
    else
      match strptimeHttp false s with
      | some t => .ok t
      | none =>
        match strptimeHttp true s with
        | some t => .ok t
        | none => .valueError
  | none => .ok now

/-! ## URL query normalization (`utils.strip_query`, utils.py lines 77-89)

`strip_query` parses the URL, re-encodes its query string through
`parse_qsl`/`urlencode` with the parameters whose names begin with `_`
filtered out, and reassembles the URL.  URLs are octet strings, modelled as
`List Nat` with elements `< 256`.  The `urllib.parse` machinery is embedded
at that octet level: `urlparse` splits off the fragment (after the first
`#`) and the query (after the first `?` of the pre-fragment part), keeping
the scheme/netloc/path prefix verbatim since only the query component is
replaced; `parse_qsl` (default `keep_blank_values=False`, separator `&`)
splits on `&`, drops empty pieces, pieces without `=` and pieces with an
empty value, and percent-plus-decodes names and values; `urlencode`
quote-plus-encodes each pair and joins with `=` and `&`; `urlunparse` adds
`?` before a non-empty query and `#` before a non-empty fragment. -/
/-- ASCII letter octet. -/
def isAlphaByte (b : Nat) : Bool :=
  (65 ≤ b && b ≤ 90) || (97 ≤ b && b ≤ 122)

/-- ASCII digit octet. -/
def isDigitByte (b : Nat) : Bool :=
  48 ≤ b && b ≤ 57

/-- The always-safe characters of `urllib.parse.quote`: letters, digits and
`_.-~`. -/
def isSafeByte (b : Nat) : Bool :=
  isAlphaByte b || isDigitByte b || b == 95 || b == 46 || b == 45 || b == 126

/-- Upper-case hex digit, as `quote` emits. -/
def hexDigitUpper (n : Nat) : Nat :=
  if n < 10 then 48 + n else 55 + n

/-- Hex digit of either case, as `unquote` accepts. -/
def isHexByte (b : Nat) : Bool :=
  isDigitByte b || (65 ≤ b && b ≤ 70) || (97 ≤ b && b ≤ 102)

/-- Value of a hex digit octet. -/
def hexVal (b : Nat) : Nat :=
  if b ≤ 57 then b - 48 else if b ≤ 70 then b - 55 else b - 87

/-- Model of `quote_plus` on one octet: safe characters pass, space becomes `+`,
everything else becomes `%XX`. -/
def quote_plus_byte (b : Nat) : List Nat :=
  if isSafeByte b then [b]
  else if b == 32 then [43]
  else [37, hexDigitUpper (b / 16), hexDigitUpper (b % 16)]

/-- Model of `urllib.parse.quote_plus` (with `safe=''`, as `urlencode` calls it). -/
def quote_plus : List Nat → List Nat
  | [] => []
  | b :: bs => quote_plus_byte b ++ quote_plus bs

/-- Model of `unquote(s.replace('+', ' '))` as `parse_qsl` applies it: `+` decodes to
space, `%` followed by two hex digits decodes to that octet, any other `%`
stays literal. -/
def unquote_plus : List Nat → List Nat
  | [] => []
  | b :: h1 :: h2 :: rest =>
    if b = 43 then 32 :: unquote_plus (h1 :: h2 :: rest)
    else if b = 37 then
      if isHexByte h1 && isHexByte h2 then
        (hexVal h1 * 16 + hexVal h2) :: unquote_plus rest
      else
        37 :: unquote_plus (h1 :: h2 :: rest)
    else b :: unquote_plus (h1 :: h2 :: rest)
  | b :: rest =>
    if b = 43 then 32 :: unquote_plus rest
    else b :: unquote_plus rest

/-- Model of `qs.split(sep)`. -/
def splitAllByte (sep : Nat) : List Nat → List (List Nat)
  | [] => [[]]
  | b :: rest =>
    match splitAllByte sep rest with
    | [] => [[]]
    | cur :: more => if b = sep then [] :: cur :: more else (b :: cur) :: more

/-- Model of `name_value.split('=', 1)`: the part before the first `=` and the part
after it, if any. -/
def splitFirstEq : List Nat → Option (List Nat × List Nat)
  | [] => none
  | b :: rest =>
    if b = 61 then some ([], rest)
    else (splitFirstEq rest).map (fun r => (b :: r.1, r.2))

/-- The per-piece treatment of `parse_qsl` with its defaults: skip an empty
piece, skip a piece without `=` and a piece with an empty value
(`keep_blank_values=False`), else decode the name and the value. -/
def qslStep (piece : List Nat) (acc : List (List Nat × List Nat)) :
    List (List Nat × List Nat) :=
  if piece = [] then acc
  else
    match splitFirstEq piece with
    | none => acc
    | some nv =>
      if nv.2 = [] then acc
      else (unquote_plus nv.1, unquote_plus nv.2) :: acc

/-- Model of `urllib.parse.parse_qsl(qs)` with its defaults: split on `&` and treat
each piece with `qslStep`. -/
def parse_qsl (qs : List Nat) : List (List Nat × List Nat) :=
  (splitAllByte 38 qs).foldr qslStep []

/-- Model of `urllib.parse.parse_qsl(qs, keep_blank_values=True)`: like `parse_qsl`
but keeping parameters with blank values (used to name the parameters
present in a URL). -/
def parse_qsl_keep_blank (qs : List Nat) : List (List Nat × List Nat) :=
  (splitAllByte 38 qs).foldr
    (fun piece acc =>
      if piece = [] then acc
      else
        match splitFirstEq piece with
        | none => (unquote_plus piece, []) :: acc
        | some nv => (unquote_plus nv.1, unquote_plus nv.2) :: acc)
    []

/-- Model of `urllib.parse.urlencode(qsl)` with its defaults (`quote_via=quote_plus`,
`safe=''`). -/
def urlencode : List (List Nat × List Nat) → List Nat
  | [] => []
  | [kv] => quote_plus kv.1 ++ 61 :: quote_plus kv.2
  | kv :: rest => quote_plus kv.1 ++ 61 :: (quote_plus kv.2 ++ 38 :: urlencode rest)

/-- Split at the first occurrence of `sep`: the prefix before it and, when
found, the suffix after it. -/
def splitOnFirst (sep : Nat) : List Nat → List Nat × Option (List Nat)
  | [] => ([], none)
  | b :: rest =>
    if b = sep then ([], some rest)
    else
      let r := splitOnFirst sep rest
      (b :: r.1, r.2)

/-- Model of `urllib.parse.urlparse(url)` restricted to what `strip_query` uses: the
prefix before the query, the query (between the first `?` and the fragment)
and the fragment (after the first `#`).  A missing component is empty, as in
`ParseResult`. -/
def urlparseQF (u : List Nat) : List Nat × List Nat × List Nat :=
  let f := splitOnFirst 35 u
  let q := splitOnFirst 63 f.1
  (q.1, q.2.getD [], f.2.getD [])

/-- Model of `urllib.parse.urlunparse(parts._replace(query=q))`: `?` is emitted only
before a non-empty query, `#` only before a non-empty fragment. -/
def urlunparseQF (base q frag : List Nat) : List Nat :=
  base ++ (if q = [] then [] else 63 :: q)
    ++ (if frag = [] then [] else 35 :: frag)

/-- Model of `k.startswith("_")` on a decoded parameter name. -/
def startsUnderscore (k : List Nat) : Bool :=
  k.headD 0 == 95

/-- Model of `utils.strip_query` (utils.py lines 77-89): return the URL unchanged
when it has no query; otherwise drop the `parse_qsl` parameters whose name
starts with `_`, re-encode the rest with `urlencode` and reassemble. -/
def strip_query (url : List Nat) : List Nat :=
  let parts := urlparseQF url
  if parts.2.1 = [] then url
  else
    let qsl := parse_qsl parts.2.1
    let qsl_stripped := qsl.filter (fun kv => !startsUnderscore kv.1)
    urlunparseQF parts.1 (urlencode qsl_stripped) parts.2.2

/-- The parameter names present in a URL's query, blank-valued ones
included. -/
def queryParamNames (u : List Nat) : List (List Nat) :=
  (parse_qsl_keep_blank (urlparseQF u).2.1).map Prod.fst

/-! ## Theorems -/

/-- The pop loop of `clear_env`, run over an arbitrary key snapshot `ks`,
removes exactly the entries whose key is sensitive and listed in `ks`. -/
theorem clear_env_loop_filter (ks : List String) (e : Env) :
    ks.foldl
      (fun new_env varname =>
        if sensitiveName varname then
          new_env.filter (fun kv => kv.1 ≠ varname)
        else
          new_env)
      e
    = e.filter (fun kv => !(sensitiveName kv.1 && ks.contains kv.1)) := by
  induction ks generalizing e with
  | nil =>
    simp
  | cons k ks ih =>
    simp only [List.foldl_cons, ih]
    by_cases hk : sensitiveName k
    · rw [if_pos hk, List.filter_filter]
      apply List.filter_congr
      intro kv _
      by_cases hkv : kv.1 = k
      · simp [hkv, hk]
      · simp [hkv, Ne.symm hkv]
    · rw [if_neg hk]
      apply List.filter_congr
      intro kv _
      by_cases hkv : kv.1 = k
      · simp [hkv, Bool.eq_false_iff.mpr hk]
      · simp [hkv]

/-- The function `clear_env` is the sensitive-name filter on the input environment. -/
theorem clear_env_eq_filter (environ : Env) :
    clear_env environ = environ.filter (fun kv => !sensitiveName kv.1) := by
  unfold clear_env
  rw [clear_env_loop_filter]
  apply List.filter_congr
  intro kv hkv
  have hmem : (environ.map Prod.fst).contains kv.1 = true :=
    List.elem_eq_true_of_mem (List.mem_map_of_mem Prod.fst hkv)
  rw [hmem, Bool.and_true]

/-- C6: `clear_env` returns a mapping that contains no variable whose name
contains `pass`, `token`, `secret` or `auth` case-insensitively, and contains
every other variable of the input with its value unchanged (and nothing
else). -/
theorem clear_env_scrubs (environ : Env) (kv : String × String) :
    kv ∈ clear_env environ ↔ kv ∈ environ ∧ sensitiveName kv.1 = false := by
  rw [clear_env_eq_filter]
  simp [List.mem_filter]

/-- Witness for C6 at a concrete environment: `PATH` survives unchanged,
`GITHUB_TOKEN` and `Password` are scrubbed. -/
theorem clear_env_scrubs_witness :
    (("PATH", "/usr/bin") ∈ clear_env
        [("PATH", "/usr/bin"), ("GITHUB_TOKEN", "tok"), ("Password", "hunter2")]
      ↔ ("PATH", "/usr/bin") ∈
          ([("PATH", "/usr/bin"), ("GITHUB_TOKEN", "tok"), ("Password", "hunter2")] : Env)
        ∧ sensitiveName "PATH" = false)
    ∧ ("GITHUB_TOKEN", "tok") ∉ clear_env
        [("PATH", "/usr/bin"), ("GITHUB_TOKEN", "tok"), ("Password", "hunter2")] := by
  constructor
  · exact clear_env_scrubs
      [("PATH", "/usr/bin"), ("GITHUB_TOKEN", "tok"), ("Password", "hunter2")]
      ("PATH", "/usr/bin")
  · intro hmem
    have := (clear_env_scrubs
      [("PATH", "/usr/bin"), ("GITHUB_TOKEN", "tok"), ("Password", "hunter2")]
      ("GITHUB_TOKEN", "tok")).mp hmem
    revert this
    decide

/-- The pop loop of `clear_env_heap` never touches a cell other than the
copy's. -/
theorem clear_env_heap_loop_frame (ks : List String) (h : Heap) (b i : Nat)
    (hib : i ≠ b) :
    (ks.foldl
      (fun hh varname =>
        if sensitiveName varname then popEnv hh b varname else hh)
      h).cells[i]? = h.cells[i]? := by
  induction ks generalizing h with
  | nil => rfl
  | cons k ks ih =>
    simp only [List.foldl_cons]
    rw [ih]
    by_cases hk : sensitiveName k
    · simp [hk, popEnv, List.getElem?_set_ne (Ne.symm hib)]
    · simp [hk]

/-- C10: `clear_env` leaves the caller's mapping unchanged — after the call,
the cell at the input address still holds exactly the input mapping, and the
returned mapping lives at a different (fresh) address. -/
theorem clear_env_heap_frame (h : Heap) (a : Nat) (ha : a < h.cells.length) :
    (clear_env_heap h a).1.cells[a]? = h.cells[a]?
    ∧ (clear_env_heap h a).2 ≠ a := by
  constructor
  · unfold clear_env_heap deepcopyEnv
    rw [clear_env_heap_loop_frame _ _ _ _ (Nat.ne_of_lt ha)]
    simp [List.getElem?_append_left ha]
  · unfold clear_env_heap deepcopyEnv
    simp
    omega

/-- Witness for C10 at a concrete one-cell heap holding `os.environ` with a
`TOKEN` variable: the original cell is unchanged. -/
theorem clear_env_heap_frame_witness :
    (clear_env_heap ⟨[[("TOKEN", "t"), ("HOME", "/root")]]⟩ 0).1.cells[0]?
        = (⟨[[("TOKEN", "t"), ("HOME", "/root")]]⟩ : Heap).cells[0]?
    ∧ (clear_env_heap ⟨[[("TOKEN", "t"), ("HOME", "/root")]]⟩ 0).2 ≠ 0 :=
  clear_env_heap_frame ⟨[[("TOKEN", "t"), ("HOME", "/root")]]⟩ 0 (by decide)

/-- The loop never runs an attempt numbered beyond `attempt + remaining`. -/
theorem tenacityGo_attempts_le {α : Type} (f : Nat → FetchAttempt α)
    (wait attempt remaining : Nat) :
    (tenacityGo f wait attempt remaining).2.1 ≤ attempt + remaining := by
  induction remaining generalizing attempt with
  | zero =>
    unfold tenacityGo
    match f attempt with
    | .ok a => simp
    | .raise e =>
      by_cases hr : retriable e <;> simp [hr]
  | succ r ih =>
    unfold tenacityGo
    match f attempt with
    | .ok a => simp
    | .raise e =>
      by_cases hr : retriable e
      · simp only [hr, if_true]
        have := ih (attempt + 1)
        omega
      · simp [hr]

/-- The number of the last attempt executed is at least the first's. -/
theorem tenacityGo_le_attempts {α : Type} (f : Nat → FetchAttempt α)
    (wait attempt remaining : Nat) :
    attempt ≤ (tenacityGo f wait attempt remaining).2.1 := by
  induction remaining generalizing attempt with
  | zero =>
    unfold tenacityGo
    match f attempt with
    | .ok a => simp
    | .raise e =>
      by_cases hr : retriable e <;> simp [hr]
  | succ r ih =>
    unfold tenacityGo
    match f attempt with
    | .ok a => simp
    | .raise e =>
      by_cases hr : retriable e
      · simp only [hr, if_true]
        have := ih (attempt + 1)
        omega
      · simp [hr]

/-- Total backoff time is `wait` seconds per retry actually performed. -/
theorem tenacityGo_sleep {α : Type} (f : Nat → FetchAttempt α)
    (wait attempt remaining : Nat) :
    (tenacityGo f wait attempt remaining).2.2
      = wait * ((tenacityGo f wait attempt remaining).2.1 - attempt) := by
  induction remaining generalizing attempt with
  | zero =>
    unfold tenacityGo
    match f attempt with
    | .ok a => simp
    | .raise e =>
      by_cases hr : retriable e <;> simp [hr]
  | succ r ih =>
    unfold tenacityGo
    match f attempt with
    | .ok a => simp
    | .raise e =>
      by_cases hr : retriable e
      · simp only [hr, if_true]
        have h1 := ih (attempt + 1)
        have h3 := tenacityGo_le_attempts f wait (attempt + 1) r
        rw [h1,
          show (tenacityGo f wait (attempt + 1) r).2.1 - attempt
              = ((tenacityGo f wait (attempt + 1) r).2.1 - (attempt + 1)) + 1
            from by omega,
          Nat.mul_succ]
      · simp [hr]

/-- A non-retriable exception raised at the attempt reached after a run of
retriable failures propagates at once: the loop stops at that attempt with
only the backoffs already spent. -/
theorem tenacityGo_nonretriable {α : Type} (f : Nat → FetchAttempt α)
    (wait : Nat) (e : FetchErr) (hnr : retriable e = false) :
    ∀ (remaining attempt k : Nat), attempt ≤ k → k ≤ attempt + remaining →
      (∀ j, attempt ≤ j → j < k →
        ∃ e', f j = .raise e' ∧ retriable e' = true) →
      f k = .raise e →
      tenacityGo f wait attempt remaining
        = (.raised e, k, wait * (k - attempt)) := by
  intro remaining
  induction remaining with
  | zero =>
    intro attempt k hk1 hk2 hpre he
    have hak : k = attempt := by omega
    subst hak
    unfold tenacityGo
    rw [he]
    simp [hnr]
  | succ r ih =>
    intro attempt k hk1 hk2 hpre he
    by_cases hak : k = attempt
    · subst hak
      unfold tenacityGo
      rw [he]
      simp [hnr]
    · obtain ⟨e', hje, hre⟩ :=
        hpre attempt (Nat.le_refl attempt) (by omega)
      unfold tenacityGo
      rw [hje]
      simp only [hre, if_true]
      rw [ih (attempt + 1) k (by omega) (by omega)
        (fun j hj1 hj2 => hpre j (by omega) hj2) he]
      show ((.raised e : RetryResult α), k, wait * (k - (attempt + 1)) + wait)
        = (.raised e, k, wait * (k - attempt))
      rw [show k - attempt = (k - (attempt + 1)) + 1 from by omega,
        Nat.mul_succ]

/-- C2: `get_extra_data_info_from_url` (i) runs at most 3 attempts,
(ii) sleeps a fixed 2 seconds before each retry and nowhere else,
(iii) propagates a non-retriable failure (HTTP error status, DNS/URL
failure, malformed response) immediately without a further retry whatever
attempt it occurs on — when attempts before `k` failed with retriable
errors and attempt `k` raises a non-retriable error, the call raises it
having run exactly `k` attempts, (iv) when the first two attempts fail with
connection resets and the third succeeds, returns the successful third
result, and (v) when all three attempts fail with retriable errors, stops
after the third with a retry failure. -/
theorem get_extra_data_info_retry_policy {α : Type} (f : Nat → FetchAttempt α) :
    (get_extra_data_info_from_url f).2.1 ≤ 3
    ∧ (get_extra_data_info_from_url f).2.2
        = 2 * ((get_extra_data_info_from_url f).2.1 - 1)
    ∧ (∀ e k, retriable e = false → 1 ≤ k → k ≤ 3 →
        (∀ j, 1 ≤ j → j < k →
          ∃ e', f j = .raise e' ∧ retriable e' = true) →
        f k = .raise e →
        get_extra_data_info_from_url f = (.raised e, k, 2 * (k - 1)))
    ∧ (∀ a, f 1 = .raise .connectionResetError →
        f 2 = .raise .connectionResetError → f 3 = .ok a →
        get_extra_data_info_from_url f = (.value a, 3, 4))
    ∧ (∀ e1 e2 e3, retriable e1 = true → retriable e2 = true →
        retriable e3 = true → f 1 = .raise e1 → f 2 = .raise e2 →
        f 3 = .raise e3 →
        get_extra_data_info_from_url f = (.retryError e3, 3, 4)) := by
  refine ⟨tenacityGo_attempts_le f 2 1 2, tenacityGo_sleep f 2 1 2,
    ?_, ?_, ?_⟩
  · intro e k hre hk1 hk3 hpre hk
    exact tenacityGo_nonretriable f 2 e hre 2 1 k hk1 (by omega) hpre hk
  · intro a h1 h2 h3
    unfold get_extra_data_info_from_url
    unfold tenacityGo
    rw [h1]
    unfold tenacityGo
    rw [h2]
    unfold tenacityGo
    rw [h3]
    simp [retriable]
  · intro e1 e2 e3 hr1 hr2 hr3 h1 h2 h3
    unfold get_extra_data_info_from_url
    unfold tenacityGo
    rw [h1]
    unfold tenacityGo
    rw [h2]
    unfold tenacityGo
    rw [h3]
    simp [hr1, hr2, hr3]

/-- Witness for C2: a fetch that resets twice then succeeds returns the
third result after two 2-second sleeps; a 404 on the second attempt, after
a reset on the first, propagates from attempt 2 with no third attempt;
three resets stop after the third attempt with a retry failure. -/
theorem get_extra_data_info_retry_policy_witness :
    get_extra_data_info_from_url
        (fun n => if n ≤ 2 then FetchAttempt.raise .connectionResetError
                  else FetchAttempt.ok (42 : Nat))
      = (.value 42, 3, 4)
    ∧ get_extra_data_info_from_url
        (fun n => if n = 1 then FetchAttempt.raise .connectionResetError
                  else (FetchAttempt.raise (.httpError 404) : FetchAttempt Nat))
      = (.raised (.httpError 404), 2, 2)
    ∧ get_extra_data_info_from_url
        (fun _ => (FetchAttempt.raise .socketTimeout : FetchAttempt Nat))
      = (.retryError .socketTimeout, 3, 4) :=
  ⟨(get_extra_data_info_retry_policy
      (fun n => if n ≤ 2 then FetchAttempt.raise .connectionResetError
                else FetchAttempt.ok (42 : Nat))).2.2.2.1 42 rfl rfl rfl,
   (get_extra_data_info_retry_policy
      (fun n => if n = 1 then FetchAttempt.raise .connectionResetError
                else (FetchAttempt.raise (.httpError 404) : FetchAttempt Nat))).2.2.1
     (.httpError 404) 2 rfl (by omega) (by omega)
     (fun j hj1 hj2 => by
       have hj : j = 1 := by omega
       subst hj
       exact ⟨.connectionResetError, rfl, rfl⟩)
     rfl,
   (get_extra_data_info_retry_policy
      (fun _ => (FetchAttempt.raise .socketTimeout : FetchAttempt Nat))).2.2.2.2
     .socketTimeout .socketTimeout .socketTimeout rfl rfl rfl rfl rfl rfl⟩

/-- The method `update()` returns true exactly on a pending differing `new_version`,
and performs no mutation when it returns false. -/
theorem ExternalData.update_eq (d : ExternalData) :
    ExternalData.update d
      = (d.hasPending, if d.hasPending then (ExternalData.update d).2 else d) := by
  unfold ExternalData.update ExternalData.hasPending
  match d with
  | ⟨p, cur, none⟩ => simp
  | ⟨p, cur, some v⟩ =>
    by_cases hv : v = cur <;> simp [hv]

/-- The loop `anyUpdate` computes whether any entity has a pending change, and
mutates the list exactly as `applyFirstPending`. -/
theorem anyUpdate_eq (l : List ExternalData) :
    anyUpdate l = (l.any ExternalData.hasPending, applyFirstPending l) := by
  induction l with
  | nil => rfl
  | cons d ds ih =>
    unfold anyUpdate applyFirstPending
    rw [ExternalData.update_eq d]
    by_cases hd : d.hasPending
    · simp [hd]
    · simp [hd, ih]

/-- If no entity has a pending change, the update pass mutates nothing. -/
theorem applyFirstPending_id (l : List ExternalData)
    (h : ∀ d ∈ l, d.hasPending = false) : applyFirstPending l = l := by
  induction l with
  | nil => rfl
  | cons d ds ih =>
    unfold applyFirstPending
    rw [h d (List.mem_cons_self d ds)]
    simp [ih (fun x hx => h x (List.mem_cons_of_mem d hx))]

/-- For any path and contents, `_dump_manifest` either raises or serializes
the contents as indented JSON. -/
theorem dump_manifest_cases (p : String) (c : JsonValue) :
    _dump_manifest p c = .notImplementedError
    ∨ _dump_manifest p c = .ok (json_dumps_indent4 c) := by
  unfold _dump_manifest
  by_cases h : (splitext p).2 = ".yaml" ∨ (splitext p).2 = ".yml"
  · left
    rw [if_pos h]
  · right
    rw [if_neg h]

theorem writeManifests_cons_err (pc : String × JsonValue)
    (rest : List (String × JsonValue))
    (h : _dump_manifest pc.1 pc.2 = .notImplementedError) :
    writeManifests (pc :: rest) = ([], true) := by
  unfold writeManifests
  rw [h]

theorem writeManifests_cons_ok (pc : String × JsonValue)
    (rest : List (String × JsonValue)) (s : String)
    (h : _dump_manifest pc.1 pc.2 = .ok s) :
    writeManifests (pc :: rest)
      = ((pc.1, s) :: (writeManifests rest).1, (writeManifests rest).2) := by
  conv_lhs => rw [writeManifests, h]

/-- When no loaded file's serialization raises, the write loop writes every
loaded file, in order, with its `json.dumps(indent=4)` text. -/
theorem writeManifests_all (contents : List (String × JsonValue))
    (h : ∀ pc ∈ contents, _dump_manifest pc.1 pc.2 ≠ .notImplementedError) :
    writeManifests contents
      = (contents.map (fun pc => (pc.1, json_dumps_indent4 pc.2)), false) := by
  induction contents with
  | nil => rfl
  | cons pc rest ih =>
    have hok : _dump_manifest pc.1 pc.2 = .ok (json_dumps_indent4 pc.2) := by
      rcases dump_manifest_cases pc.1 pc.2 with hcase | hcase
      · exact absurd hcase (h pc (List.mem_cons_self pc rest))
      · exact hcase
    rw [writeManifests_cons_ok pc rest _ hok,
      ih (fun qc hqc => h qc (List.mem_cons_of_mem pc hqc))]
    simp

/-- When the serialization of some loaded file raises, the write loop stops
at the first such file, having written exactly the files before it. -/
theorem writeManifests_aborts (pre : List (String × JsonValue))
    (pc : String × JsonValue) (rest : List (String × JsonValue))
    (hpre : ∀ qc ∈ pre, _dump_manifest qc.1 qc.2 ≠ .notImplementedError)
    (h : _dump_manifest pc.1 pc.2 = .notImplementedError) :
    writeManifests (pre ++ pc :: rest)
      = (pre.map (fun qc => (qc.1, json_dumps_indent4 qc.2)), true) := by
  induction pre with
  | nil =>
    simp only [List.nil_append, List.map_nil]
    exact writeManifests_cons_err pc rest h
  | cons qc qs ih =>
    have hok : _dump_manifest qc.1 qc.2 = .ok (json_dumps_indent4 qc.2) := by
      rcases dump_manifest_cases qc.1 qc.2 with hcase | hcase
      · exact absurd hcase (hpre qc (List.mem_cons_self qc qs))
      · exact hcase
    simp only [List.cons_append]
    rw [writeManifests_cons_ok qc (qs ++ pc :: rest) _ hok,
      ih (fun rc hrc => hpre rc (List.mem_cons_of_mem qc hrc))]
    simp

/-- C1 counterexample: a checker with two loaded JSON files and two
entities, both with a pending `new_version`.  Contrary to the claim,
`update()` is not invoked on every entity — `any()` short-circuits after
the first returns `True`, so the second entity's pending update is never
applied (its subtree still records `current = 0` although its own
`update()` would have changed it) — and `"b.json"` is written although no
entity backed by it changed. -/
theorem update_manifests_counterexample :
    update_manifests
        ⟨[("a.json", JsonValue.obj []), ("b.json", JsonValue.obj [])],
         [⟨"a.json", 0, some 1⟩, ⟨"b.json", 0, some 1⟩]⟩
      = (⟨[("a.json", JsonValue.obj []), ("b.json", JsonValue.obj [])],
          [⟨"a.json", 1, some 1⟩, ⟨"b.json", 0, some 1⟩]⟩,
         [("a.json", "\x7b\x7d"), ("b.json", "\x7b\x7d")], false)
    ∧ ExternalData.update ⟨"b.json", 0, some 1⟩ = (true, ⟨"b.json", 1, some 1⟩) := by
  constructor
  · rfl
  · rfl

/-- C1 (amended): `update_manifests()` invokes `update()` on the entities in
order only up to and including the first one with a pending change (Python's
`any()` short-circuits); when no entity has a pending `new_version` the
state is unchanged, zero files are written and no error is raised; when at
least one entity has a pending change the write loop runs over every loaded
manifest file (not only the touched ones): if no loaded file is YAML every
loaded file is written, and if serializing some loaded file raises
`NotImplementedError` the loop aborts at the first such file, having
written exactly the files before it. -/
theorem update_manifests_behavior (c : ManifestChecker) :
    ((∀ d ∈ c.external_data, d.hasPending = false) →
      update_manifests c = (c, [], false))
    ∧ ((∃ d ∈ c.external_data, d.hasPending) →
        (update_manifests c).2 = writeManifests c.manifest_contents)
    ∧ (update_manifests c).1.external_data
        = applyFirstPending c.external_data
    ∧ (update_manifests c).1.manifest_contents = c.manifest_contents
    ∧ ((∀ pc ∈ c.manifest_contents,
          _dump_manifest pc.1 pc.2 ≠ .notImplementedError) →
        writeManifests c.manifest_contents
          = (c.manifest_contents.map
              (fun pc => (pc.1, json_dumps_indent4 pc.2)), false))
    ∧ (∀ pre pc rest, c.manifest_contents = pre ++ pc :: rest →
        (∀ qc ∈ pre, _dump_manifest qc.1 qc.2 ≠ .notImplementedError) →
        _dump_manifest pc.1 pc.2 = .notImplementedError →
        writeManifests c.manifest_contents
          = (pre.map (fun qc => (qc.1, json_dumps_indent4 qc.2)), true)) := by
  refine ⟨?_, ?_, ?_, ?_, ?_, ?_⟩
  · intro h
    unfold update_manifests
    rw [anyUpdate_eq]
    have hany : c.external_data.any ExternalData.hasPending = false := by
      rw [List.any_eq_false]
      intro d hd
      simp [h d hd]
    simp [hany, applyFirstPending_id c.external_data h]
  · intro h
    obtain ⟨d, hd, hp⟩ := h
    unfold update_manifests
    rw [anyUpdate_eq]
    have hany : c.external_data.any ExternalData.hasPending = true :=
      List.any_eq_true.mpr ⟨d, hd, hp⟩
    simp [hany]
  · unfold update_manifests
    rw [anyUpdate_eq]
  · unfold update_manifests
    rw [anyUpdate_eq]
  · exact writeManifests_all c.manifest_contents
  · intro pre pc rest hsplit hpre hyaml
    rw [hsplit]
    exact writeManifests_aborts pre pc rest hpre hyaml

/-- Witness for the amended C1: with no pending update nothing is written;
with a pending update and a single JSON manifest that file is written with
its serialized text; with a pending update and a YAML manifest loaded first
the write loop raises before writing anything. -/
theorem update_manifests_behavior_witness :
    update_manifests ⟨[("a.json", JsonValue.obj [])], [⟨"a.json", 5, some 5⟩]⟩
      = (⟨[("a.json", JsonValue.obj [])], [⟨"a.json", 5, some 5⟩]⟩, [], false)
    ∧ (update_manifests
        ⟨[("a.json", JsonValue.obj [])], [⟨"a.json", 0, some 1⟩]⟩).2
      = ([("a.json", json_dumps_indent4 (JsonValue.obj []))], false)
    ∧ (update_manifests
        ⟨[("m.yaml", JsonValue.obj []), ("a.json", JsonValue.obj [])],
         [⟨"a.json", 0, some 1⟩]⟩).2
      = ([], true) :=
  ⟨(update_manifests_behavior
      ⟨[("a.json", JsonValue.obj [])], [⟨"a.json", 5, some 5⟩]⟩).1
      (by decide),
   ((update_manifests_behavior
      ⟨[("a.json", JsonValue.obj [])], [⟨"a.json", 0, some 1⟩]⟩).2.1
      ⟨⟨"a.json", 0, some 1⟩, by decide, by decide⟩).trans
    ((update_manifests_behavior
      ⟨[("a.json", JsonValue.obj [])], [⟨"a.json", 0, some 1⟩]⟩).2.2.2.2.1
      (by decide)),
   ((update_manifests_behavior
      ⟨[("m.yaml", JsonValue.obj []), ("a.json", JsonValue.obj [])],
       [⟨"a.json", 0, some 1⟩]⟩).2.1
      ⟨⟨"a.json", 0, some 1⟩, by decide, by decide⟩).trans
    ((update_manifests_behavior
      ⟨[("m.yaml", JsonValue.obj []), ("a.json", JsonValue.obj [])],
       [⟨"a.json", 0, some 1⟩]⟩).2.2.2.2.2
      [] ("m.yaml", JsonValue.obj []) [("a.json", JsonValue.obj [])]
      rfl (by simp) (by decide))⟩

/-- C8: persisting to a YAML manifest (extension `.yaml` or `.yml`) fails
with the unsupported-operation error (`NotImplementedError`), and exactly
then — it is never silently dropped; every other path serializes the
contents as JSON with 4-space indentation (a non-empty top-level object
opens with a newline and exactly 4 spaces before its first key). -/
theorem dump_manifest_yaml_unsupported (p : String) (c : JsonValue) :
    (_dump_manifest p c = .notImplementedError ↔
      (splitext p).2 = ".yaml" ∨ (splitext p).2 = ".yml")
    ∧ ((splitext p).2 ≠ ".yaml" → (splitext p).2 ≠ ".yml" →
        _dump_manifest p c = .ok (json_dumps_indent4 c))
    ∧ (∀ f fs, (json_dumps_indent4 (.obj (f :: fs))).data.take 6
        = '\x7b' :: '\n' :: [' ', ' ', ' ', ' ']) := by
  refine ⟨?_, ?_, ?_⟩
  · unfold _dump_manifest
    by_cases h : (splitext p).2 = ".yaml" ∨ (splitext p).2 = ".yml"
    · simp [h]
    · simp [h]
  · intro h1 h2
    unfold _dump_manifest
    simp [h1, h2]
  · intro f fs
    show (String.mk (jdump 4 0 (.obj (f :: fs)))).data.take 6 = _
    unfold jdump
    unfold jfields
    match fs with
    | [] => simp [joinSepList, jpad, List.replicate]
    | g :: gs => simp [joinSepList, jpad, List.replicate]

/-- Witness for C8: a `.yaml` path errors, a `.json` path serializes. -/
theorem dump_manifest_yaml_unsupported_witness :
    _dump_manifest "org.app.yaml" (JsonValue.obj []) = .notImplementedError
    ∧ _dump_manifest "org.app.json" (JsonValue.obj [])
        = .ok (json_dumps_indent4 (JsonValue.obj [])) :=
  ⟨(dump_manifest_yaml_unsupported "org.app.yaml" (JsonValue.obj [])).1.mpr
      (Or.inl (by decide)),
   (dump_manifest_yaml_unsupported "org.app.json" (JsonValue.obj [])).2.1
      (by decide) (by decide)⟩

/-- C7 counterexample: loading is not recursive.  The top manifest
references `sub`, which itself references `subsub` holding source `7`; the
claim's recursive reading would include the entity for source `7`, but the
code returns the empty entity list because it never walks the loaded
sub-manifest's own `modules`. -/
theorem get_module_data_counterexample :
    _get_module_data_from_json "base" moduleFixtureFs moduleFixtureTop
      = some []
    ∧ specModuleEntries "base" moduleFixtureFs 2 moduleFixtureTop.modules
      = some [⟨7⟩]
    ∧ (some [] : Option (List ExternalDataSource)) ≠ some [⟨7⟩] := by
  refine ⟨rfl, rfl, by decide⟩

/-- C7 (amended): `_get_module_data_from_json` performs exactly one level of
module-file loading — each string entry is resolved relative to the base
directory and contributes the loaded file's top-level `sources` only (its
nested `modules` references are not followed) — and the entities appear in
declaration order, one per source declaration, module by module. -/
theorem get_module_data_one_level (baseDir : String)
    (fs : String → Option ManifestM) (json_data : ManifestM) :
    _get_module_data_from_json baseDir fs json_data
      = (mapOptList (moduleSources baseDir fs) json_data.modules).map
          (fun ss => (ss.map ExternalDataSource.from_sources).flatten) := by
  show getModuleDataGo baseDir fs json_data.modules []
      = (mapOptList (moduleSources baseDir fs) json_data.modules).map
          (fun ss => (ss.map ExternalDataSource.from_sources).flatten)
  have go_eq : ∀ (entries : List ModEntry) (acc : List ExternalDataSource),
      getModuleDataGo baseDir fs entries acc
        = (mapOptList (moduleSources baseDir fs) entries).map
            (fun ss => acc ++ (ss.map ExternalDataSource.from_sources).flatten) := by
    intro entries
    induction entries with
    | nil => intro acc; simp [getModuleDataGo, mapOptList]
    | cons e rest ih =>
      intro acc
      match e with
      | .path p =>
        match hfs : fs (joinPath baseDir p) with
        | none =>
          simp [getModuleDataGo, mapOptList, moduleSources, hfs]
        | some m =>
          simp only [getModuleDataGo, mapOptList, moduleSources, hfs, ih,
            Option.map_some]
          cases mapOptList (moduleSources baseDir fs) rest <;> simp
      | .inline m =>
        simp only [getModuleDataGo, mapOptList, moduleSources, ih]
        cases mapOptList (moduleSources baseDir fs) rest <;> simp
  rw [go_eq]
  cases mapOptList (moduleSources baseDir fs) json_data.modules <;> simp

theorem encodeLE_length (n k : Nat) : (encodeLE n k).length = k := by
  induction k generalizing n with
  | zero => rfl
  | succ k ih => simp [encodeLE, ih]

theorem decodeLE_encodeLE (n k : Nat) (h : n < 256 ^ k) :
    decodeLE (encodeLE n k) = n := by
  induction k generalizing n with
  | zero =>
    interval_cases n
    rfl
  | succ k ih =>
    have hdiv : n / 256 < 256 ^ k := by
      rw [Nat.div_lt_iff_lt_mul (by norm_num)]
      calc n < 256 ^ (k + 1) := h
        _ = 256 ^ k * 256 := by ring
    simp [encodeLE, decodeLE, ih (n / 256) hdiv, Nat.mod_add_div]

/-- The parser `parseElfHeader` recovers the declared fields from the synthetic
header. -/
theorem parseElfHeader_mkElf64LE (shoff shentsize shnum : Nat)
    (h1 : shoff < 2 ^ 64) (h2 : shentsize < 2 ^ 16) (h3 : shnum < 2 ^ 16) :
    parseElfHeader (mkElf64LE shoff shentsize shnum)
      = some ⟨shoff, shentsize, shnum⟩ := by
  have hlen : (mkElf64LE shoff shentsize shnum).length = 64 := by
    simp [mkElf64LE, elfHeadBytes, elfMidBytes, encodeLE_length]
  have hdrop40 : (mkElf64LE shoff shentsize shnum).drop 40
      = encodeLE shoff 8 ++ (elfMidBytes ++ (encodeLE shentsize 2
          ++ (encodeLE shnum 2 ++ [0, 0]))) := by
    simp [mkElf64LE, elfHeadBytes]
  have hdropMid : (elfMidBytes ++ (encodeLE shentsize 2
      ++ (encodeLE shnum 2 ++ [0, 0]))).drop 10
      = encodeLE shentsize 2 ++ (encodeLE shnum 2 ++ [0, 0]) := by
    simp [elfMidBytes]
  have hshoff : readNum true (mkElf64LE shoff shentsize shnum) 0x28 8
      = some shoff := by
    unfold readNum
    rw [hlen, if_pos (by norm_num), hdrop40]
    rw [List.take_left' (encodeLE_length shoff 8)]
    simp [decodeLE_encodeLE shoff 8 (by norm_num at h1 ⊢; omega)]
  have hdrop58 : (mkElf64LE shoff shentsize shnum).drop 58
      = encodeLE shentsize 2 ++ (encodeLE shnum 2 ++ [0, 0]) := by
    have : (58 : Nat) = 40 + 18 := by norm_num
    rw [this, ← List.drop_drop, hdrop40]
    rw [show (18 : Nat) = (encodeLE shoff 8).length + 10 from by
      rw [encodeLE_length]]
    rw [List.drop_append, hdropMid]
  have hshentsize : readNum true (mkElf64LE shoff shentsize shnum) 0x3A 2
      = some shentsize := by
    unfold readNum
    rw [hlen, if_pos (by norm_num)]
    rw [show (0x3A : Nat) = 58 from by norm_num, hdrop58]
    rw [List.take_left' (encodeLE_length shentsize 2)]
    simp [decodeLE_encodeLE shentsize 2 (by norm_num at h2 ⊢; omega)]
  have hdrop60 : (mkElf64LE shoff shentsize shnum).drop 60
      = encodeLE shnum 2 ++ [0, 0] := by
    have : (60 : Nat) = 58 + 2 := by norm_num
    rw [this, ← List.drop_drop, hdrop58]
    rw [List.drop_left' (encodeLE_length shentsize 2)]
  have hshnum : readNum true (mkElf64LE shoff shentsize shnum) 0x3C 2
      = some shnum := by
    unfold readNum
    rw [hlen, if_pos (by norm_num)]
    rw [show (0x3C : Nat) = 60 from by norm_num, hdrop60]
    rw [List.take_left' (encodeLE_length shnum 2)]
    simp [decodeLE_encodeLE shnum 2 (by norm_num at h3 ⊢; omega)]
  have htake4 : (mkElf64LE shoff shentsize shnum).take 4
      = [0x7f, 0x45, 0x4c, 0x46] := by
    simp [mkElf64LE, elfHeadBytes]
  have hget4 : (mkElf64LE shoff shentsize shnum)[4]? = some 2 := by
    simp [mkElf64LE, elfHeadBytes]
  have hget5 : (mkElf64LE shoff shentsize shnum)[5]? = some 1 := by
    simp [mkElf64LE, elfHeadBytes]
  unfold parseElfHeader
  rw [htake4, if_pos rfl, hget4, hget5]
  simp only [if_pos (Or.inl rfl)]
  norm_num
  rw [hshoff, hshentsize, hshnum]

/-- C5: for every byte sequence whose leading ELF header parses with
section-header-table offset `e_shoff`, entry count `e_shnum` and entry size
`e_shentsize`, the extractor computes the start of the appended filesystem
image as exactly `e_shoff + e_shnum * e_shentsize` and writes the bytes from
that offset onward; and a synthetic valid 64-bit little-endian header
declaring those fields parses back to exactly them. -/
theorem appimage_offset_formula :
    (∀ (d : List Nat) (h : ElfHeader), parseElfHeader d = some h →
      appimage_offset d = some (h.e_shoff + h.e_shnum * h.e_shentsize)
      ∧ appimage_payload d
          = some (d.drop (h.e_shoff + h.e_shnum * h.e_shentsize)))
    ∧ (∀ shoff shentsize shnum : Nat,
        shoff < 2 ^ 64 → shentsize < 2 ^ 16 → shnum < 2 ^ 16 →
        appimage_offset (mkElf64LE shoff shentsize shnum)
          = some (shoff + shnum * shentsize)) := by
  constructor
  · intro d h hp
    simp [appimage_offset, appimage_payload, hp]
  · intro shoff shentsize shnum h1 h2 h3
    simp [appimage_offset, parseElfHeader_mkElf64LE shoff shentsize shnum h1 h2 h3]

/-- Witness for C5: a synthetic header with `e_shoff = 64`,
`e_shentsize = 64`, `e_shnum = 2` yields payload offset `64 + 2 * 64 = 192`. -/
theorem appimage_offset_formula_witness :
    appimage_offset (mkElf64LE 64 64 2) = some 192 :=
  appimage_offset_formula.2 64 64 2 (by norm_num) (by norm_num) (by norm_num)

/-- C9 counterexample: with a successful extraction whose first `.desktop`
file lacks the `X-AppImage-Version` key, the claim requires the non-value
"version unknown" result, but the code raises: `kf.get_string` throws
`GLib.Error` for a missing key and nothing catches it. -/
theorem extract_appimage_version_counterexample :
    extract_appimage_version (mkElf64LE 0 0 0)
        (fun _ => ⟨0, "", [[(("Desktop Entry", "Name"), "App")]]⟩)
      = .error .gerror
    ∧ (Except.error AppImageErr.gerror
        ≠ (.ok none : Except AppImageErr (Option String))) := by
  exact ⟨rfl, fun hcontra => Except.noConfusion hcontra⟩

/-- C9 (amended): when the header parses, a non-zero `unsquashfs` exit
propagates as a hard `CalledProcessError`; with a zero exit the function
returns `None` ("version unknown") when no `.desktop` file exists, returns
the version read from the first `.desktop` file when it has the
`X-AppImage-Version` key, and raises a `GLib.Error` (rather than returning a
non-value) when the first `.desktop` file lacks the key. -/
theorem extract_appimage_version_behavior (data : List Nat)
    (run : List Nat → UnsquashResult) (h : ElfHeader)
    (hp : parseElfHeader data = some h)
    (code : Int) (stderr : String) (desktops : List KeyFile)
    (hrun : run (data.drop (h.e_shoff + h.e_shnum * h.e_shentsize))
      = ⟨code, stderr, desktops⟩) :
    (code ≠ 0 →
      extract_appimage_version data run = .error (.calledProcessError code stderr))
    ∧ (code = 0 → desktops = [] →
        extract_appimage_version data run = .ok none)
    ∧ (∀ kf rest v, code = 0 → desktops = kf :: rest →
        lookupKeyFile kf "Desktop Entry" "X-AppImage-Version" = some v →
        extract_appimage_version data run = .ok (some v))
    ∧ (∀ kf rest, code = 0 → desktops = kf :: rest →
        lookupKeyFile kf "Desktop Entry" "X-AppImage-Version" = none →
        extract_appimage_version data run = .error .gerror) := by
  refine ⟨?_, ?_, ?_, ?_⟩
  · intro hc
    unfold extract_appimage_version
    rw [hp]
    simp [hrun, hc]
  · intro hc hd
    unfold extract_appimage_version
    rw [hp]
    simp [hrun, hc, hd]
  · intro kf rest v hc hd hk
    unfold extract_appimage_version
    rw [hp]
    simp [hrun, hc, hd, hk]
  · intro kf rest hc hd hk
    unfold extract_appimage_version
    rw [hp]
    simp [hrun, hc, hd, hk]

/-- Witness for the amended C9: a present key returns its value; a failing
`unsquashfs` run propagates the process error. -/
theorem extract_appimage_version_behavior_witness :
    extract_appimage_version (mkElf64LE 0 0 0)
        (fun _ => ⟨0, "", [[(("Desktop Entry", "X-AppImage-Version"), "1.2")]]⟩)
      = .ok (some "1.2")
    ∧ extract_appimage_version (mkElf64LE 0 0 0) (fun _ => ⟨1, "boom", []⟩)
      = .error (.calledProcessError 1 "boom") :=
  ⟨(extract_appimage_version_behavior (mkElf64LE 0 0 0)
      (fun _ => ⟨0, "", [[(("Desktop Entry", "X-AppImage-Version"), "1.2")]]⟩)
      ⟨0, 0, 0⟩ rfl 0 "" [[(("Desktop Entry", "X-AppImage-Version"), "1.2")]]
      rfl).2.2.1
    [(("Desktop Entry", "X-AppImage-Version"), "1.2")] [] "1.2" rfl rfl rfl,
   (extract_appimage_version_behavior (mkElf64LE 0 0 0)
      (fun _ => ⟨1, "boom", []⟩) ⟨0, 0, 0⟩ rfl 1 "boom" [] rfl).1
    (by decide)⟩

/-- C3 counterexample: a present but unparsable date header does not fall
back to the current time — the second `strptime` raises `ValueError`, which
propagates out of `_extract_timestamp`. -/
theorem extract_timestamp_counterexample :
    _extract_timestamp (some "not a date") none ⟨2020, 1, 1, 0, 0, 0⟩
      = .valueError
    ∧ TsResult.valueError ≠ TsResult.ok ⟨2020, 1, 1, 0, 0, 0⟩ :=
  ⟨rfl, by decide⟩

/-- C3 (amended): the timestamp comes from `Last-Modified`, falling back to
`Date`; the current time is used exactly when the selected value is absent
or empty (falsy); a truthy value is parsed against the two accepted formats
and, when both fail, the `ValueError` propagates — it does not yield the
current time. -/
theorem extract_timestamp_behavior (lm date : Option String) (now : DateTime) :
    (truthy (pyOr lm date) = false → _extract_timestamp lm date now = .ok now)
    ∧ (∀ s, pyOr lm date = some s → s ≠ "" →
        ((∀ t, strptimeHttp false s = some t →
            _extract_timestamp lm date now = .ok t)
        ∧ (∀ t, strptimeHttp false s = none → strptimeHttp true s = some t →
            _extract_timestamp lm date now = .ok t)
        ∧ (strptimeHttp false s = none → strptimeHttp true s = none →
            _extract_timestamp lm date now = .valueError)))
    ∧ (∀ s, s ≠ "" → pyOr (some s) date = some s) := by
  refine ⟨?_, ?_, ?_⟩
  · intro h
    unfold _extract_timestamp
    match hor : pyOr lm date with
    | none => rfl
    | some s =>
      rw [hor] at h
      simp only [truthy, decide_eq_false_iff_not, ne_eq, not_not] at h
      simp [h]
  · intro s hor hs
    refine ⟨?_, ?_, ?_⟩
    · intro t h1
      unfold _extract_timestamp
      rw [hor]
      simp [hs, h1]
    · intro t h1 h2
      unfold _extract_timestamp
      rw [hor]
      simp [hs, h1, h2]
    · intro h1 h2
      unfold _extract_timestamp
      rw [hor]
      simp [hs, h1, h2]
  · intro s hs
    simp [pyOr, hs]

/-- Witness for the amended C3: no headers yield the current time; an
RFC-1123 `Last-Modified` parses under the first format; an old-style
dashed date parses under the second; `Last-Modified` takes precedence. -/
theorem extract_timestamp_behavior_witness :
    _extract_timestamp none none ⟨2020, 1, 1, 0, 0, 0⟩
      = .ok ⟨2020, 1, 1, 0, 0, 0⟩
    ∧ _extract_timestamp (some "Mon, 06 Jan 2020 12:34:56 GMT") none
        ⟨2020, 1, 1, 0, 0, 0⟩ = .ok ⟨2020, 1, 6, 12, 34, 56⟩
    ∧ _extract_timestamp (some "Sun, 06-Nov-1994 08:49:37 GMT") none
        ⟨2020, 1, 1, 0, 0, 0⟩ = .ok ⟨1994, 11, 6, 8, 49, 37⟩ :=
  ⟨(extract_timestamp_behavior none none ⟨2020, 1, 1, 0, 0, 0⟩).1 rfl,
   ((extract_timestamp_behavior (some "Mon, 06 Jan 2020 12:34:56 GMT") none
      ⟨2020, 1, 1, 0, 0, 0⟩).2.1 "Mon, 06 Jan 2020 12:34:56 GMT" rfl
      (by decide)).1 ⟨2020, 1, 6, 12, 34, 56⟩ rfl,
   ((extract_timestamp_behavior (some "Sun, 06-Nov-1994 08:49:37 GMT") none
      ⟨2020, 1, 1, 0, 0, 0⟩).2.1 "Sun, 06-Nov-1994 08:49:37 GMT" rfl
      (by decide)).2.1 ⟨1994, 11, 6, 8, 49, 37⟩ rfl rfl⟩

/-- C4 counterexample: `strip_query` does remove a parameter whose name does
not start with an underscore.  On `"http://x/?a&b=1"` (octets below) the
blank-valued parameter `a` is dropped by `parse_qsl`'s
`keep_blank_values=False` default, so the result is `"http://x/?b=1"` —
`a` is gone although its name has no leading underscore. -/
theorem strip_query_counterexample :
    strip_query [104, 116, 116, 112, 58, 47, 47, 120, 47, 63, 97, 38, 98, 61, 49]
      = [104, 116, 116, 112, 58, 47, 47, 120, 47, 63, 98, 61, 49]
    ∧ queryParamNames
        [104, 116, 116, 112, 58, 47, 47, 120, 47, 63, 97, 38, 98, 61, 49]
      = [[97], [98]]
    ∧ queryParamNames
        (strip_query
          [104, 116, 116, 112, 58, 47, 47, 120, 47, 63, 97, 38, 98, 61, 49])
      = [[98]]
    ∧ startsUnderscore [97] = false := by
  refine ⟨by decide, by decide, by decide, by decide⟩

/-! ### Round-trip properties of the quoting machinery -/
theorem isSafeByte_ne (b : Nat) (h : isSafeByte b = true) :
    b ≠ 43 ∧ b ≠ 37 ∧ b ≠ 35 ∧ b ≠ 63 ∧ b ≠ 38 ∧ b ≠ 61 ∧ b ≠ 32 := by
  simp only [isSafeByte, isAlphaByte, isDigitByte, Bool.or_eq_true,
    Bool.and_eq_true, beq_iff_eq, decide_eq_true_eq] at h
  omega

theorem hexDigitUpper_spec (n : Nat) (h : n < 16) :
    isHexByte (hexDigitUpper n) = true ∧ hexVal (hexDigitUpper n) = n := by
  interval_cases n <;> decide

theorem hexDigitUpper_ne (n : Nat) :
    hexDigitUpper n ≠ 35 ∧ hexDigitUpper n ≠ 38 ∧ hexDigitUpper n ≠ 61
    ∧ hexDigitUpper n ≠ 63 ∧ hexDigitUpper n ≠ 43 ∧ hexDigitUpper n ≠ 37 := by
  unfold hexDigitUpper
  by_cases h : n < 10 <;> simp [h] <;> omega

theorem hexVal_lt (b : Nat) (h : isHexByte b = true) : hexVal b < 16 := by
  simp only [isHexByte, isDigitByte, Bool.or_eq_true, Bool.and_eq_true,
    decide_eq_true_eq] at h
  unfold hexVal
  by_cases h1 : b ≤ 57 <;> by_cases h2 : b ≤ 70 <;> simp [h1, h2] <;> omega

theorem quote_plus_byte_ne_nil (b : Nat) : quote_plus_byte b ≠ [] := by
  unfold quote_plus_byte
  by_cases h1 : isSafeByte b <;> by_cases h2 : b == 32 <;> simp [h1, h2]

theorem quote_plus_byte_mem (b c : Nat) (hc : c ∈ quote_plus_byte b) :
    c ≠ 35 ∧ c ≠ 38 ∧ c ≠ 61 ∧ c ≠ 63 := by
  unfold quote_plus_byte at hc
  by_cases h1 : isSafeByte b
  · simp [h1] at hc
    obtain ⟨n1, n2, n3, n4, n5, n6, n7⟩ := isSafeByte_ne b h1
    omega
  · by_cases h2 : b == 32
    · simp [h1, h2] at hc
      omega
    · simp [h1, h2] at hc
      rcases hc with hc | hc | hc
      · omega
      · subst hc
        have := hexDigitUpper_ne (b / 16)
        tauto
      · subst hc
        have := hexDigitUpper_ne (b % 16)
        tauto

theorem quote_plus_mem (s : List Nat) (c : Nat) (hc : c ∈ quote_plus s) :
    c ≠ 35 ∧ c ≠ 38 ∧ c ≠ 61 ∧ c ≠ 63 := by
  induction s with
  | nil => simp [quote_plus] at hc
  | cons b bs ih =>
    simp only [quote_plus, List.mem_append] at hc
    rcases hc with hc | hc
    · exact quote_plus_byte_mem b c hc
    · exact ih hc

theorem quote_plus_ne_nil (s : List Nat) (h : s ≠ []) : quote_plus s ≠ [] := by
  cases s with
  | nil => exact absurd rfl h
  | cons b bs =>
    simp only [quote_plus]
    intro hcontra
    exact quote_plus_byte_ne_nil b (List.append_eq_nil.mp hcontra).1

theorem unquote_plus_cons_43 (rest : List Nat) :
    unquote_plus (43 :: rest) = 32 :: unquote_plus rest := by
  match rest with
  | [] => simp [unquote_plus]
  | [x] => simp [unquote_plus]
  | x :: y :: z => simp [unquote_plus]

theorem unquote_plus_cons_other (b : Nat) (rest : List Nat)
    (h43 : b ≠ 43) (h37 : b ≠ 37) :
    unquote_plus (b :: rest) = b :: unquote_plus rest := by
  match rest with
  | [] => simp [unquote_plus, h43]
  | [x] => simp [unquote_plus, h43]
  | x :: y :: z => simp [unquote_plus, h43, h37]

theorem unquote_plus_cons_37_hex (h1 h2 : Nat) (rest : List Nat)
    (hh : (isHexByte h1 && isHexByte h2) = true) :
    unquote_plus (37 :: h1 :: h2 :: rest)
      = (hexVal h1 * 16 + hexVal h2) :: unquote_plus rest := by
  simp [unquote_plus, hh]

theorem unquote_plus_cons_37_nohex (h1 h2 : Nat) (rest : List Nat)
    (hh : (isHexByte h1 && isHexByte h2) = false) :
    unquote_plus (37 :: h1 :: h2 :: rest)
      = 37 :: unquote_plus (h1 :: h2 :: rest) := by
  simp [unquote_plus, hh]

theorem unquote_quote_byte (b : Nat) (hb : b < 256) (rest : List Nat) :
    unquote_plus (quote_plus_byte b ++ rest) = b :: unquote_plus rest := by
  unfold quote_plus_byte
  by_cases h1 : isSafeByte b
  · have hne := isSafeByte_ne b h1
    simp only [h1, if_true, List.cons_append, List.nil_append]
    exact unquote_plus_cons_other b rest hne.1 hne.2.1
  · by_cases h2 : b == 32
    · have hb32 : b = 32 := by simpa using h2
      simp only [h1, h2, if_true, Bool.false_eq_true, if_false,
        List.cons_append, List.nil_append]
      rw [unquote_plus_cons_43, hb32]
    · simp only [h1, h2, Bool.false_eq_true, if_false, List.cons_append,
        List.nil_append]
      have hdiv : b / 16 < 16 := by omega
      have hmod : b % 16 < 16 := by omega
      have hs1 := hexDigitUpper_spec (b / 16) hdiv
      have hs2 := hexDigitUpper_spec (b % 16) hmod
      rw [unquote_plus_cons_37_hex _ _ rest
        (by rw [Bool.and_eq_true]; exact ⟨hs1.1, hs2.1⟩)]
      rw [hs1.2, hs2.2]
      congr 1
      omega

theorem unquote_quote (s : List Nat) (hs : ∀ c ∈ s, c < 256) (rest : List Nat) :
    unquote_plus (quote_plus s ++ rest) = s ++ unquote_plus rest := by
  induction s with
  | nil => simp [quote_plus]
  | cons b bs ih =>
    simp only [quote_plus, List.append_assoc, List.cons_append]
    rw [unquote_quote_byte b (hs b (List.mem_cons_self b bs))]
    rw [ih (fun c hc => hs c (List.mem_cons_of_mem b hc))]

theorem unquote_quote_nil (s : List Nat) (hs : ∀ c ∈ s, c < 256) :
    unquote_plus (quote_plus s) = s := by
  have := unquote_quote s hs []
  simpa [unquote_plus] using this

theorem unquote_plus_ne_nil (s : List Nat) (h : s ≠ []) :
    unquote_plus s ≠ [] := by
  match s with
  | [] => exact absurd rfl h
  | b :: rest =>
    by_cases h43 : b = 43
    · subst h43
      rw [unquote_plus_cons_43]
      simp
    · by_cases h37 : b = 37
      · subst h37
        match rest with
        | [] => simp [unquote_plus]
        | [h1] => simp [unquote_plus]
        | h1 :: h2 :: rest2 =>
          by_cases hhex : (isHexByte h1 && isHexByte h2) = true
          · rw [unquote_plus_cons_37_hex h1 h2 rest2 hhex]
            simp
          · rw [unquote_plus_cons_37_nohex h1 h2 rest2
              (Bool.eq_false_iff.mpr hhex)]
            simp
      · rw [unquote_plus_cons_other b rest h43 h37]
        simp

theorem unquote_plus_lt256_aux (n : Nat) :
    ∀ (s : List Nat), s.length ≤ n → (∀ c ∈ s, c < 256) →
      ∀ c ∈ unquote_plus s, c < 256 := by
  induction n with
  | zero =>
    intro s hlen hs c hc
    have hnil : s = [] := List.eq_nil_of_length_eq_zero (Nat.le_zero.mp hlen)
    subst hnil
    simp [unquote_plus] at hc
  | succ n ih =>
    intro s hlen hs c hc
    match s with
    | [] => simp [unquote_plus] at hc
    | b :: rest =>
      have hrest : rest.length ≤ n := by
        simp only [List.length_cons] at hlen
        omega
      by_cases h43 : b = 43
      · subst h43
        rw [unquote_plus_cons_43] at hc
        rcases List.mem_cons.mp hc with hc | hc
        · omega
        · exact ih rest hrest (fun x hx => hs x (List.mem_cons_of_mem _ hx)) c hc
      · by_cases h37 : b = 37
        · subst h37
          match rest with
          | [] =>
            rw [show unquote_plus [37] = [37] from rfl] at hc
            simp at hc
            omega
          | [h1] =>
            rw [show unquote_plus (37 :: [h1]) = 37 :: unquote_plus [h1]
              from rfl] at hc
            rcases List.mem_cons.mp hc with hc | hc
            · omega
            · exact ih [h1] hrest
                (fun x hx => hs x (List.mem_cons_of_mem _ hx)) c hc
          | h1 :: h2 :: rest2 =>
            have hrest2 : rest2.length ≤ n := by
              simp only [List.length_cons] at hrest
              omega
            by_cases hhex : (isHexByte h1 && isHexByte h2) = true
            · rw [unquote_plus_cons_37_hex h1 h2 rest2 hhex] at hc
              rcases List.mem_cons.mp hc with hc | hc
              · have hb := Bool.and_eq_true .. ▸ hhex
                have hv1 : hexVal h1 < 16 := hexVal_lt h1
                  ((Bool.and_eq_true _ _).mp hhex).1
                have hv2 : hexVal h2 < 16 := hexVal_lt h2
                  ((Bool.and_eq_true _ _).mp hhex).2
                omega
              · exact ih rest2 hrest2
                  (fun x hx => hs x (List.mem_cons_of_mem _
                    (List.mem_cons_of_mem _ (List.mem_cons_of_mem _ hx)))) c hc
            · rw [unquote_plus_cons_37_nohex h1 h2 rest2
                (Bool.eq_false_iff.mpr hhex)] at hc
              rcases List.mem_cons.mp hc with hc | hc
              · omega
              · exact ih (h1 :: h2 :: rest2) hrest
                  (fun x hx => hs x (List.mem_cons_of_mem _ hx)) c hc
        · rw [unquote_plus_cons_other b rest h43 h37] at hc
          rcases List.mem_cons.mp hc with hc | hc
          · exact hc ▸ hs b (List.mem_cons_self b rest)
          · exact ih rest hrest
              (fun x hx => hs x (List.mem_cons_of_mem _ hx)) c hc

theorem unquote_plus_lt256 (s : List Nat) (hs : ∀ c ∈ s, c < 256) :
    ∀ c ∈ unquote_plus s, c < 256 :=
  unquote_plus_lt256_aux s.length s (Nat.le_refl _) hs

/-! ### Splitting and re-joining query strings -/
theorem splitAllByte_ne_nil (sep : Nat) (l : List Nat) :
    splitAllByte sep l ≠ [] := by
  cases l with
  | nil => simp [splitAllByte]
  | cons b rest =>
    unfold splitAllByte
    match splitAllByte sep rest with
    | [] => simp
    | cur :: more => by_cases hb : b = sep <;> simp [hb]

theorem splitAllByte_cons_eq (sep b : Nat) (rest cur : List Nat)
    (more : List (List Nat)) (hsp : splitAllByte sep rest = cur :: more) :
    splitAllByte sep (b :: rest)
      = if b = sep then [] :: cur :: more else (b :: cur) :: more := by
  show (match splitAllByte sep rest with
        | [] => [[]]
        | cur :: more =>
          if b = sep then [] :: cur :: more else (b :: cur) :: more) = _
  rw [hsp]

theorem splitAllByte_no_sep (sep : Nat) (l : List Nat) (h : sep ∉ l) :
    splitAllByte sep l = [l] := by
  induction l with
  | nil => rfl
  | cons b rest ih =>
    have hb : b ≠ sep := fun hb => h (hb ▸ List.mem_cons_self b rest)
    have hrest : sep ∉ rest := fun hr => h (List.mem_cons_of_mem b hr)
    rw [splitAllByte_cons_eq sep b rest rest [] (ih hrest)]
    simp [hb]

theorem splitAllByte_append (sep : Nat) (a b : List Nat) (h : sep ∉ a) :
    splitAllByte sep (a ++ sep :: b) = a :: splitAllByte sep b := by
  induction a with
  | nil =>
    simp only [List.nil_append]
    match hsp : splitAllByte sep b with
    | [] => exact absurd hsp (splitAllByte_ne_nil sep b)
    | cur :: more =>
      rw [splitAllByte_cons_eq sep sep b cur more hsp]
      simp
  | cons x xs ih =>
    have hx : x ≠ sep := fun hx => h (hx ▸ List.mem_cons_self x xs)
    have hxs : sep ∉ xs := fun hr => h (List.mem_cons_of_mem x hr)
    simp only [List.cons_append]
    rw [splitAllByte_cons_eq sep x (xs ++ sep :: b) xs (splitAllByte sep b)
      (ih hxs)]
    simp [hx]

theorem mem_splitAllByte (sep : Nat) (l piece : List Nat)
    (hp : piece ∈ splitAllByte sep l) : ∀ c ∈ piece, c ∈ l := by
  induction l generalizing piece with
  | nil =>
    simp only [splitAllByte] at hp
    simp at hp
    subst hp
    simp
  | cons b rest ih =>
    match hsp : splitAllByte sep rest with
    | [] => exact absurd hsp (splitAllByte_ne_nil sep rest)
    | cur :: more =>
      rw [splitAllByte_cons_eq sep b rest cur more hsp] at hp
      by_cases hb : b = sep
      · rw [if_pos hb] at hp
        rcases List.mem_cons.mp hp with hp | hp
        · subst hp
          simp
        · intro c hc
          exact List.mem_cons_of_mem b (ih piece (hsp ▸ hp) c hc)
      · rw [if_neg hb] at hp
        rcases List.mem_cons.mp hp with hp | hp
        · subst hp
          intro c hc
          rcases List.mem_cons.mp hc with hc | hc
          · exact hc ▸ List.mem_cons_self b rest
          · exact List.mem_cons_of_mem b
              (ih cur (hsp ▸ List.mem_cons_self cur more) c hc)
        · intro c hc
          exact List.mem_cons_of_mem b
            (ih piece (hsp ▸ List.mem_cons_of_mem cur hp) c hc)

theorem splitFirstEq_append (a b : List Nat) (h : (61 : Nat) ∉ a) :
    splitFirstEq (a ++ 61 :: b) = some (a, b) := by
  induction a with
  | nil => simp [splitFirstEq]
  | cons x xs ih =>
    have hx : x ≠ 61 := fun hx => h (hx ▸ List.mem_cons_self x xs)
    have hxs : (61 : Nat) ∉ xs := fun hr => h (List.mem_cons_of_mem x hr)
    simp only [List.cons_append]
    unfold splitFirstEq
    rw [ih hxs]
    simp [hx]

theorem splitFirstEq_sub (l : List Nat) (nv : List Nat × List Nat)
    (h : splitFirstEq l = some nv) :
    (∀ c ∈ nv.1, c ∈ l) ∧ (∀ c ∈ nv.2, c ∈ l) := by
  induction l generalizing nv with
  | nil => simp [splitFirstEq] at h
  | cons b rest ih =>
    unfold splitFirstEq at h
    by_cases hb : b = 61
    · rw [if_pos hb, Option.some.injEq] at h
      subst h
      exact ⟨by simp, fun c hc => List.mem_cons_of_mem _ hc⟩
    · rw [if_neg hb] at h
      match hs : splitFirstEq rest with
      | none => rw [hs] at h; simp at h
      | some r =>
        rw [hs] at h
        simp at h
        subst h
        have hr := ih r hs
        refine ⟨?_, fun c hc => List.mem_cons_of_mem b (hr.2 c hc)⟩
        intro c hc
        rcases List.mem_cons.mp hc with hc | hc
        · exact hc ▸ List.mem_cons_self b rest
        · exact List.mem_cons_of_mem b (hr.1 c hc)

theorem urlencode_mem (l : List (List Nat × List Nat)) :
    ∀ c ∈ urlencode l, c ≠ 35 ∧ c ≠ 63 := by
  induction l with
  | nil => simp [urlencode]
  | cons kv rest ih =>
    intro c hc
    match rest with
    | [] =>
      simp only [urlencode, List.mem_append, List.mem_cons] at hc
      rcases hc with hc | hc | hc
      · have := quote_plus_mem kv.1 c hc
        tauto
      · omega
      · have := quote_plus_mem kv.2 c hc
        tauto
    | kv2 :: rest2 =>
      simp only [urlencode, List.mem_append, List.mem_cons] at hc
      rcases hc with hc | hc | hc | hc | hc
      · have := quote_plus_mem kv.1 c hc
        tauto
      · omega
      · have := quote_plus_mem kv.2 c hc
        tauto
      · omega
      · exact ih c hc

theorem urlencode_cons_ne_nil (kv : List Nat × List Nat)
    (rest : List (List Nat × List Nat)) : urlencode (kv :: rest) ≠ [] := by
  match rest with
  | [] => simp [urlencode]
  | kv2 :: rest2 => simp [urlencode]

/-- A re-encoded pair re-parses to itself, with the accumulator intact. -/
theorem qslStep_quote (k v : List Nat) (hk : ∀ c ∈ k, c < 256)
    (hv : ∀ c ∈ v, c < 256) (hvne : v ≠ [])
    (acc : List (List Nat × List Nat)) :
    qslStep (quote_plus k ++ 61 :: quote_plus v) acc = (k, v) :: acc := by
  have hne : quote_plus k ++ 61 :: quote_plus v ≠ [] := by simp
  have h61 : (61 : Nat) ∉ quote_plus k := fun hmem =>
    (quote_plus_mem k 61 hmem).2.2.1 rfl
  unfold qslStep
  rw [if_neg hne, splitFirstEq_append (quote_plus k) (quote_plus v) h61]
  show (if quote_plus v = [] then acc
        else (unquote_plus (quote_plus k), unquote_plus (quote_plus v)) :: acc)
      = (k, v) :: acc
  rw [if_neg (quote_plus_ne_nil v hvne)]
  rw [unquote_quote_nil k hk, unquote_quote_nil v hv]

/-- The parser `parse_qsl` inverts `urlencode` on lists of pairs with in-range octets
and non-blank values. -/
theorem parse_qsl_urlencode (l : List (List Nat × List Nat))
    (h : ∀ kv ∈ l, kv.2 ≠ [] ∧ (∀ c ∈ kv.1, c < 256) ∧ (∀ c ∈ kv.2, c < 256)) :
    parse_qsl (urlencode l) = l := by
  induction l with
  | nil => rfl
  | cons kv rest ih =>
    obtain ⟨hvne, hk, hv⟩ := h kv (List.mem_cons_self kv rest)
    have h38k : ∀ c ∈ quote_plus kv.1, c ≠ 38 := fun c hc =>
      (quote_plus_mem kv.1 c hc).2.1
    have h38v : ∀ c ∈ quote_plus kv.2, c ≠ 38 := fun c hc =>
      (quote_plus_mem kv.2 c hc).2.1
    have h38 : (38 : Nat) ∉ quote_plus kv.1 ++ 61 :: quote_plus kv.2 := by
      intro hmem
      simp only [List.mem_append, List.mem_cons] at hmem
      rcases hmem with hmem | hmem | hmem
      · exact h38k 38 hmem rfl
      · omega
      · exact h38v 38 hmem rfl
    match rest with
    | [] =>
      show parse_qsl (quote_plus kv.1 ++ 61 :: quote_plus kv.2) = [kv]
      unfold parse_qsl
      rw [splitAllByte_no_sep 38 _ h38]
      simp only [List.foldr_cons, List.foldr_nil]
      rw [qslStep_quote kv.1 kv.2 hk hv hvne]
    | kv2 :: rest2 =>
      show parse_qsl (quote_plus kv.1
          ++ 61 :: (quote_plus kv.2 ++ 38 :: urlencode (kv2 :: rest2)))
        = kv :: kv2 :: rest2
      have hassoc : quote_plus kv.1
          ++ 61 :: (quote_plus kv.2 ++ 38 :: urlencode (kv2 :: rest2))
          = (quote_plus kv.1 ++ 61 :: quote_plus kv.2)
            ++ 38 :: urlencode (kv2 :: rest2) := by
        simp
      unfold parse_qsl
      rw [hassoc, splitAllByte_append 38 _ _ h38]
      simp only [List.foldr_cons]
      have hrest := ih (fun x hx => h x (List.mem_cons_of_mem kv hx))
      unfold parse_qsl at hrest
      rw [hrest, qslStep_quote kv.1 kv.2 hk hv hvne]

theorem qslStep_nil (acc : List (List Nat × List Nat)) : qslStep [] acc = acc :=
  rfl

theorem qslStep_no_eq (piece : List Nat) (acc : List (List Nat × List Nat))
    (hp : piece ≠ []) (hs : splitFirstEq piece = none) :
    qslStep piece acc = acc := by
  unfold qslStep
  rw [if_neg hp, hs]

theorem qslStep_blank (piece : List Nat) (acc : List (List Nat × List Nat))
    (nv : List Nat × List Nat) (hp : piece ≠ [])
    (hs : splitFirstEq piece = some nv) (hv : nv.2 = []) :
    qslStep piece acc = acc := by
  unfold qslStep
  rw [if_neg hp, hs]
  show (if nv.2 = [] then acc
        else (unquote_plus nv.1, unquote_plus nv.2) :: acc) = acc
  rw [if_pos hv]

theorem qslStep_pair (piece : List Nat) (acc : List (List Nat × List Nat))
    (nv : List Nat × List Nat) (hp : piece ≠ [])
    (hs : splitFirstEq piece = some nv) (hv : nv.2 ≠ []) :
    qslStep piece acc = (unquote_plus nv.1, unquote_plus nv.2) :: acc := by
  unfold qslStep
  rw [if_neg hp, hs]
  show (if nv.2 = [] then acc
        else (unquote_plus nv.1, unquote_plus nv.2) :: acc) = _
  rw [if_neg hv]

theorem mem_foldr_qslStep (pieces : List (List Nat)) (kv : List Nat × List Nat)
    (h : kv ∈ pieces.foldr qslStep []) :
    ∃ piece ∈ pieces, ∃ nv, splitFirstEq piece = some nv ∧ nv.2 ≠ []
      ∧ kv = (unquote_plus nv.1, unquote_plus nv.2) := by
  induction pieces with
  | nil => simp at h
  | cons p ps ih =>
    simp only [List.foldr_cons] at h
    by_cases hp : p = []
    · rw [hp, qslStep_nil] at h
      obtain ⟨piece, hmem, hrest⟩ := ih h
      exact ⟨piece, List.mem_cons_of_mem p hmem, hrest⟩
    · match hs : splitFirstEq p with
      | none =>
        rw [qslStep_no_eq p _ hp hs] at h
        obtain ⟨piece, hmem, hrest⟩ := ih h
        exact ⟨piece, List.mem_cons_of_mem p hmem, hrest⟩
      | some nv =>
        by_cases hv : nv.2 = []
        · rw [qslStep_blank p _ nv hp hs hv] at h
          obtain ⟨piece, hmem, hrest⟩ := ih h
          exact ⟨piece, List.mem_cons_of_mem p hmem, hrest⟩
        · rw [qslStep_pair p _ nv hp hs hv] at h
          rcases List.mem_cons.mp h with h | h
          · exact ⟨p, List.mem_cons_self p ps, nv, hs, hv, h⟩
          · obtain ⟨piece, hmem, hrest⟩ := ih h
            exact ⟨piece, List.mem_cons_of_mem p hmem, hrest⟩

/-- Every pair produced by `parse_qsl` has a non-blank value, and in-range
octets when the query has in-range octets. -/
theorem parse_qsl_mem (qs : List Nat) (hq : ∀ c ∈ qs, c < 256) :
    ∀ kv ∈ parse_qsl qs,
      kv.2 ≠ [] ∧ (∀ c ∈ kv.1, c < 256) ∧ (∀ c ∈ kv.2, c < 256) := by
  intro kv hkv
  obtain ⟨piece, hpiece, nv, hsplit, hvne, hkveq⟩ :=
    mem_foldr_qslStep (splitAllByte 38 qs) kv hkv
  have hpc : ∀ c ∈ piece, c < 256 := fun c hc =>
    hq c (mem_splitAllByte 38 qs piece hpiece c hc)
  have hsub := splitFirstEq_sub piece nv hsplit
  have h1 : ∀ c ∈ nv.1, c < 256 := fun c hc => hpc c (hsub.1 c hc)
  have h2 : ∀ c ∈ nv.2, c < 256 := fun c hc => hpc c (hsub.2 c hc)
  subst hkveq
  exact ⟨unquote_plus_ne_nil nv.2 hvne,
    unquote_plus_lt256 nv.1 h1, unquote_plus_lt256 nv.2 h2⟩

theorem splitOnFirst_not_mem (sep : Nat) (l : List Nat) (h : sep ∉ l) :
    splitOnFirst sep l = (l, none) := by
  induction l with
  | nil => rfl
  | cons b rest ih =>
    have hb : b ≠ sep := fun hb => h (hb ▸ List.mem_cons_self b rest)
    have hrest : sep ∉ rest := fun hr => h (List.mem_cons_of_mem b hr)
    unfold splitOnFirst
    rw [if_neg hb, ih hrest]

theorem splitOnFirst_append (sep : Nat) (a b : List Nat) (h : sep ∉ a) :
    splitOnFirst sep (a ++ sep :: b) = (a, some b) := by
  induction a with
  | nil =>
    simp only [List.nil_append]
    unfold splitOnFirst
    rw [if_pos rfl]
  | cons x xs ih =>
    have hx : x ≠ sep := fun hx => h (hx ▸ List.mem_cons_self x xs)
    have hxs : sep ∉ xs := fun hr => h (List.mem_cons_of_mem x hr)
    simp only [List.cons_append]
    unfold splitOnFirst
    rw [if_neg hx, ih hxs]

theorem splitOnFirst_fst (sep : Nat) (l : List Nat) :
    ∀ c ∈ (splitOnFirst sep l).1, c ∈ l ∧ c ≠ sep := by
  induction l with
  | nil => simp [splitOnFirst]
  | cons b rest ih =>
    unfold splitOnFirst
    by_cases hb : b = sep
    · rw [if_pos hb]
      simp
    · rw [if_neg hb]
      intro c hc
      rcases List.mem_cons.mp hc with hc | hc
      · exact ⟨hc ▸ List.mem_cons_self b rest, hc ▸ hb⟩
      · exact ⟨List.mem_cons_of_mem b (ih c hc).1, (ih c hc).2⟩

theorem splitOnFirst_snd (sep : Nat) (l t : List Nat)
    (h : (splitOnFirst sep l).2 = some t) : ∀ c ∈ t, c ∈ l := by
  induction l generalizing t with
  | nil => simp [splitOnFirst] at h
  | cons b rest ih =>
    unfold splitOnFirst at h
    by_cases hb : b = sep
    · rw [if_pos hb] at h
      simp only [Option.some.injEq] at h
      subst h
      intro c hc
      exact List.mem_cons_of_mem b hc
    · rw [if_neg hb] at h
      intro c hc
      exact List.mem_cons_of_mem b (ih t h c hc)

/-- Reassembling base, non-empty query and fragment parses back to exactly
those components. -/
theorem urlparseQF_unparse (base q frag : List Nat)
    (hb35 : (35 : Nat) ∉ base) (hb63 : (63 : Nat) ∉ base)
    (hq : q ≠ []) (hq35 : (35 : Nat) ∉ q) :
    urlparseQF (urlunparseQF base q frag) = (base, q, frag) := by
  unfold urlunparseQF
  rw [if_neg hq]
  by_cases hf : frag = []
  · rw [if_pos hf]
    have h35 : (35 : Nat) ∉ base ++ 63 :: q := by
      intro hmem
      rcases List.mem_append.mp hmem with hmem | hmem
      · exact hb35 hmem
      · rcases List.mem_cons.mp hmem with hmem | hmem
        · omega
        · exact hq35 hmem
    unfold urlparseQF
    rw [List.append_nil, splitOnFirst_not_mem 35 _ h35]
    simp only [Option.getD_none]
    rw [splitOnFirst_append 63 base q hb63]
    simp [hf]
  · rw [if_neg hf]
    have hassoc : base ++ 63 :: q ++ 35 :: frag
        = (base ++ 63 :: q) ++ 35 :: frag := by
      simp
    have h35 : (35 : Nat) ∉ base ++ 63 :: q := by
      intro hmem
      rcases List.mem_append.mp hmem with hmem | hmem
      · exact hb35 hmem
      · rcases List.mem_cons.mp hmem with hmem | hmem
        · omega
        · exact hq35 hmem
    unfold urlparseQF
    rw [hassoc, splitOnFirst_append 35 _ frag h35]
    simp only [Option.getD_some]
    rw [splitOnFirst_append 63 base q hb63]
    simp

/-- The branch structure of `strip_query`, with the `let`s expanded. -/
theorem strip_query_eq (v : List Nat) :
    strip_query v
      = if (urlparseQF v).2.1 = [] then v
        else
          urlunparseQF (urlparseQF v).1
            (urlencode ((parse_qsl (urlparseQF v).2.1).filter
              (fun kv => !startsUnderscore kv.1)))
            (urlparseQF v).2.2 := rfl

/-- A URL without a query component is returned unchanged. -/
theorem strip_query_no_query (v : List Nat) (hv : (urlparseQF v).2.1 = []) :
    strip_query v = v := by
  rw [strip_query_eq, if_pos hv]

/-- A reassembled URL with no query parses with an empty query. -/
theorem urlparseQF_no_query (base frag : List Nat)
    (hb35 : (35 : Nat) ∉ base) (hb63 : (63 : Nat) ∉ base) :
    (urlparseQF (base ++ if frag = [] then [] else 35 :: frag)).2.1 = [] := by
  by_cases hf : frag = []
  · rw [if_pos hf, List.append_nil]
    unfold urlparseQF
    rw [splitOnFirst_not_mem 35 base hb35]
    simp only []
    rw [splitOnFirst_not_mem 63 base hb63]
    rfl
  · rw [if_neg hf]
    unfold urlparseQF
    rw [splitOnFirst_append 35 base frag hb35]
    simp only []
    rw [splitOnFirst_not_mem 63 base hb63]
    rfl

/-- C4 (amended): `strip_query` is idempotent for every URL of octets, and
it never removes a `parse_qsl` parameter — one with a non-blank value —
whose name does not start with an underscore (parameters with blank values
are dropped by `parse_qsl` regardless of their name, as the counterexample
shows). -/
theorem strip_query_props (u : List Nat) (hu : ∀ c ∈ u, c < 256) :
    strip_query (strip_query u) = strip_query u
    ∧ (∀ kv ∈ parse_qsl (urlparseQF u).2.1, startsUnderscore kv.1 = false →
        kv ∈ parse_qsl (urlparseQF (strip_query u)).2.1) := by
  by_cases hq : (urlparseQF u).2.1 = []
  · have hsu : strip_query u = u := strip_query_no_query u hq
    constructor
    · rw [hsu]
      exact hsu
    · intro kv hkv hund
      rw [hq] at hkv
      have hnil : parse_qsl [] = [] := rfl
      rw [hnil] at hkv
      exact absurd hkv (List.not_mem_nil kv)
  · have hq256 : ∀ c ∈ (urlparseQF u).2.1, c < 256 := by
      intro c hc
      unfold urlparseQF at hc
      simp only [] at hc
      match hsnd : (splitOnFirst 63 (splitOnFirst 35 u).1).2 with
      | none => rw [hsnd] at hc; simp at hc
      | some t =>
        rw [hsnd] at hc
        simp only [Option.getD_some] at hc
        have h1 : c ∈ (splitOnFirst 35 u).1 :=
          splitOnFirst_snd 63 (splitOnFirst 35 u).1 t hsnd c hc
        exact hu c (splitOnFirst_fst 35 u c h1).1
    have hbase35 : (35 : Nat) ∉ (urlparseQF u).1 := by
      intro hmem
      unfold urlparseQF at hmem
      simp only [] at hmem
      have h1 := splitOnFirst_fst 63 (splitOnFirst 35 u).1 35 hmem
      exact (splitOnFirst_fst 35 u 35 h1.1).2 rfl
    have hbase63 : (63 : Nat) ∉ (urlparseQF u).1 := by
      intro hmem
      unfold urlparseQF at hmem
      simp only [] at hmem
      exact (splitOnFirst_fst 63 (splitOnFirst 35 u).1 63 hmem).2 rfl
    have hl' : ∀ kv ∈ (parse_qsl (urlparseQF u).2.1).filter
        (fun kv => !startsUnderscore kv.1),
        kv.2 ≠ [] ∧ (∀ c ∈ kv.1, c < 256) ∧ (∀ c ∈ kv.2, c < 256) :=
      fun kv hkv =>
        parse_qsl_mem (urlparseQF u).2.1 hq256 kv (List.mem_of_mem_filter hkv)
    have hsu : strip_query u
        = urlunparseQF (urlparseQF u).1
            (urlencode ((parse_qsl (urlparseQF u).2.1).filter
              (fun kv => !startsUnderscore kv.1)))
            (urlparseQF u).2.2 := by
      rw [strip_query_eq, if_neg hq]
    by_cases hq' : urlencode ((parse_qsl (urlparseQF u).2.1).filter
        (fun kv => !startsUnderscore kv.1)) = []
    · constructor
      · rw [hsu, hq']
        have hunp : urlunparseQF (urlparseQF u).1 [] (urlparseQF u).2.2
            = (urlparseQF u).1
              ++ (if (urlparseQF u).2.2 = [] then []
                  else 35 :: (urlparseQF u).2.2) := by
          unfold urlunparseQF
          simp
        rw [hunp]
        exact strip_query_no_query _
          (urlparseQF_no_query (urlparseQF u).1 (urlparseQF u).2.2
            hbase35 hbase63)
      · intro kv hkv hund
        exfalso
        have hkv' : kv ∈ (parse_qsl (urlparseQF u).2.1).filter
            (fun kv => !startsUnderscore kv.1) := by
          rw [List.mem_filter]
          exact ⟨hkv, by simp [hund]⟩
        match hfil : (parse_qsl (urlparseQF u).2.1).filter
            (fun kv => !startsUnderscore kv.1) with
        | [] => rw [hfil] at hkv'; exact absurd hkv' (List.not_mem_nil kv)
        | kv0 :: rest0 =>
          rw [hfil] at hq'
          exact urlencode_cons_ne_nil kv0 rest0 hq'
    · have hq'35 : (35 : Nat) ∉ urlencode ((parse_qsl (urlparseQF u).2.1).filter
          (fun kv => !startsUnderscore kv.1)) := fun hmem =>
        (urlencode_mem _ 35 hmem).1 rfl
      have hrec := urlparseQF_unparse (urlparseQF u).1
        (urlencode ((parse_qsl (urlparseQF u).2.1).filter
          (fun kv => !startsUnderscore kv.1)))
        (urlparseQF u).2.2 hbase35 hbase63 hq' hq'35
      have hrec1 : (urlparseQF (urlunparseQF (urlparseQF u).1
          (urlencode ((parse_qsl (urlparseQF u).2.1).filter
            (fun kv => !startsUnderscore kv.1)))
          (urlparseQF u).2.2)).1 = (urlparseQF u).1 := by
        rw [hrec]
      have hrec21 : (urlparseQF (urlunparseQF (urlparseQF u).1
          (urlencode ((parse_qsl (urlparseQF u).2.1).filter
            (fun kv => !startsUnderscore kv.1)))
          (urlparseQF u).2.2)).2.1
          = urlencode ((parse_qsl (urlparseQF u).2.1).filter
              (fun kv => !startsUnderscore kv.1)) := by
        rw [hrec]
      have hrec22 : (urlparseQF (urlunparseQF (urlparseQF u).1
          (urlencode ((parse_qsl (urlparseQF u).2.1).filter
            (fun kv => !startsUnderscore kv.1)))
          (urlparseQF u).2.2)).2.2 = (urlparseQF u).2.2 := by
        rw [hrec]
      have hparse : parse_qsl (urlencode ((parse_qsl (urlparseQF u).2.1).filter
          (fun kv => !startsUnderscore kv.1)))
          = (parse_qsl (urlparseQF u).2.1).filter
              (fun kv => !startsUnderscore kv.1) :=
        parse_qsl_urlencode _ hl'
      constructor
      · rw [hsu, strip_query_eq, hrec21, if_neg hq', hrec1, hrec22, hparse]
        rw [List.filter_filter]
        have hff : ∀ kv ∈ parse_qsl (urlparseQF u).2.1,
            ((!startsUnderscore kv.1) && !startsUnderscore kv.1)
              = !startsUnderscore kv.1 := by
          intro kv _
          simp
        rw [List.filter_congr hff]
      · intro kv hkv hund
        rw [hsu, hrec21, hparse, List.mem_filter]
        exact ⟨hkv, by simp [hund]⟩

/-- Witness for the amended C4 at `"http://x/?_a=1&b=2"`: stripping is
idempotent there, and the non-underscore parameter `b=2` survives into the
stripped URL's query. -/
theorem strip_query_props_witness :
    strip_query (strip_query
        [104, 116, 116, 112, 58, 47, 47, 120, 47, 63, 95, 97, 61, 49, 38, 98, 61, 50])
      = strip_query
        [104, 116, 116, 112, 58, 47, 47, 120, 47, 63, 95, 97, 61, 49, 38, 98, 61, 50]
    ∧ ([98], [50]) ∈ parse_qsl (urlparseQF (strip_query
        [104, 116, 116, 112, 58, 47, 47, 120, 47, 63, 95, 97, 61, 49, 38, 98, 61, 50])).2.1 :=
  ⟨(strip_query_props
      [104, 116, 116, 112, 58, 47, 47, 120, 47, 63, 95, 97, 61, 49, 38, 98, 61, 50]
      (by decide)).1,
   (strip_query_props
      [104, 116, 116, 112, 58, 47, 47, 120, 47, 63, 95, 97, 61, 49, 38, 98, 61, 50]
      (by decide)).2 ([98], [50]) (by decide) (by decide)⟩

end FEDC
